import Mathlib

/-!
# Poker-Hands-Rank: a verification development

Shallow embedding of the C sources `Cards.h`, `CardsFunctions.c`,
`PokerFunctions.c` and `CardsValidation.c`.

Modelling conventions.

* The C enums `Rank`, `Suit` and `PokerRank` are natural numbers, with the
  enumerators as named constants (`ACE = 0`, ..., `KING = 12`, and so on).
* A C array of cards (`Card *`, `Card cards[]`) is a `List Card`; reading
  `cards[i]` is `cardAt cards i` and writing `cards[i] = c` is `List.set`.
  A deck is such a list of length `DECK_SIZE`, the cards of a hand one of length
  `POKER_HAND_SIZE`; the theorems assume these lengths.  An array of hands is a
  `List Hand`, read with `handAt`.  An access outside the array, which C leaves
  undefined, reads a zero card (or an empty hand) and writes nothing; under the
  length assumptions of the theorems no such access happens.
* `int` counters and player counts are natural numbers: the program only ever
  holds non-negative values in them, and a loop `for (i = 0; i < n; i++)` with
  `n ≤ 0` runs zero times, as it does here for `n = 0`.
* A C `for` loop is a recursive function whose first argument is the number of
  iterations left (the loop bounds are known on entry, so this is exact) and
  whose next argument is the loop counter.
* A function that updates an array in place returns the updated array.
* `rand()` is the stream of the values it returns: `rnd k` is the value of the
  call number `k` (counted from zero).
* C truth values (`TRUE`/`FALSE`) are `Bool`.
* The `int` values of the input validation, which can be `INVALID_INPUT = -1`,
  are integers; a C string is the list of its characters.  Text written to the
  console is not part of the model.
-/

namespace PokerHands

/-! ## Constants of `Cards.h` -/

abbrev CARD_NUMBERS_AMOUNT : Nat := 13
abbrev CARD_TYPE_AMOUNT : Nat := 4
abbrev DECK_SIZE : Nat := 52
abbrev POKER_HAND_SIZE : Nat := 5
abbrev TEST_HANDS_SIZE : Nat := 9

/-! Constants of the input validation.  They are compared with `int` values that
can be negative (`INVALID_INPUT`), so they are integers. -/
abbrev VALID_ARGUMENTS_AMOUNT : Int := 3
abbrev MIN_ARGV_LEN : Int := 1
abbrev MAX_ARG_LEN : Int := 2
abbrev MIN_INPUT_RANGE : Int := 1
abbrev MAX_INPUT_RANGE : Int := 13
abbrev CARDS_PER_HAND_INDEX : Nat := 1
abbrev PLAYER_AMOUNT_INDEX : Nat := 2
abbrev FIRST_CHAR_INTEGER : Char := '0'
abbrev LAST_CHAR_INTEGER : Char := '9'
abbrev VALID_INPUT : Int := 1
abbrev INVALID_INPUT : Int := -1

/-! `enum suit` -/
abbrev HEART : Nat := 0
abbrev DIAMOND : Nat := 1
abbrev CLUBS : Nat := 2
abbrev SPADES : Nat := 3

/-! `enum rank` -/
abbrev ACE : Nat := 0
abbrev TWO : Nat := 1
abbrev THREE : Nat := 2
abbrev FOUR : Nat := 3
abbrev FIVE : Nat := 4
abbrev SIX : Nat := 5
abbrev SEVEN : Nat := 6
abbrev EIGHT : Nat := 7
abbrev NINE : Nat := 8
abbrev TEN : Nat := 9
abbrev JACK : Nat := 10
abbrev QUEEN : Nat := 11
abbrev KING : Nat := 12

/-! `enum pokerRank` -/
abbrev HIGH_CARD : Nat := 0
abbrev ONE_PAIR : Nat := 1
abbrev TWO_PAIRS : Nat := 2
abbrev THREE_OF_A_KIND : Nat := 3
abbrev STRAIGHT : Nat := 4
abbrev FLUSH : Nat := 5
abbrev FULL_HOUSE : Nat := 6
abbrev FOUR_OF_A_KIND : Nat := 7
abbrev STRAIGHT_FLUSH : Nat := 8

/-! `enum handIndex` -/
abbrev FIRST_CARD : Nat := 0
abbrev SECOND_CARD : Nat := 1
abbrev THIRD_CARD : Nat := 2
abbrev FOURTH_CARD : Nat := 3
abbrev FIFTH_CARD : Nat := 4

/-- The C `struct card`. -/
structure Card where
  rank : Nat
  suit : Nat
deriving DecidableEq, Repr

/-- The C `struct hand`: the array `cards[POKER_HAND_SIZE]` and the category. -/
structure Hand where
  cards : List Card
  handRank : Nat
deriving DecidableEq, Repr

/-- Reading `cards[i]` from a C array of cards. -/
def cardAt (cards : List Card) (i : Nat) : Card :=
  cards.getD i ⟨0, 0⟩

/-- Reading `hands[i]` from a C array of hands. -/
def handAt (hands : List Hand) (i : Nat) : Hand :=
  hands.getD i ⟨[], 0⟩

/-- The fixture `TEST_HANDS` of `Cards.h`. -/
def TEST_HANDS : List Hand :=
  [ ⟨[⟨TWO, DIAMOND⟩, ⟨THREE, CLUBS⟩, ⟨FOUR, DIAMOND⟩, ⟨SIX, SPADES⟩, ⟨QUEEN, HEART⟩], 0⟩,
    ⟨[⟨FOUR, HEART⟩, ⟨FIVE, HEART⟩, ⟨FIVE, DIAMOND⟩, ⟨SEVEN, HEART⟩, ⟨TEN, SPADES⟩], 0⟩,
    ⟨[⟨THREE, DIAMOND⟩, ⟨THREE, HEART⟩, ⟨TEN, CLUBS⟩, ⟨TEN, DIAMOND⟩, ⟨QUEEN, CLUBS⟩], 0⟩,
    ⟨[⟨THREE, DIAMOND⟩, ⟨THREE, HEART⟩, ⟨THREE, SPADES⟩, ⟨TEN, DIAMOND⟩, ⟨QUEEN, CLUBS⟩], 0⟩,
    ⟨[⟨ACE, SPADES⟩, ⟨TWO, DIAMOND⟩, ⟨THREE, CLUBS⟩, ⟨FOUR, DIAMOND⟩, ⟨FIVE, DIAMOND⟩], 0⟩,
    ⟨[⟨TWO, CLUBS⟩, ⟨THREE, CLUBS⟩, ⟨FOUR, CLUBS⟩, ⟨SIX, CLUBS⟩, ⟨QUEEN, CLUBS⟩], 0⟩,
    ⟨[⟨THREE, DIAMOND⟩, ⟨THREE, HEART⟩, ⟨THREE, SPADES⟩, ⟨TEN, DIAMOND⟩, ⟨TEN, CLUBS⟩], 0⟩,
    ⟨[⟨THREE, DIAMOND⟩, ⟨THREE, HEART⟩, ⟨THREE, SPADES⟩, ⟨THREE, CLUBS⟩, ⟨QUEEN, CLUBS⟩], 0⟩,
    ⟨[⟨ACE, DIAMOND⟩, ⟨TEN, DIAMOND⟩, ⟨JACK, DIAMOND⟩, ⟨QUEEN, DIAMOND⟩, ⟨KING, DIAMOND⟩], 0⟩ ]

/-! ## `CardsFunctions.c` -/

/-- The loop of `initializeDeck`: `deck[index] = {index % 13, index / 13}`. -/
def initializeDeckLoop : Nat → Nat → List Card → List Card
  | 0, _, deck => deck
  | n + 1, index, deck =>
    initializeDeckLoop n (index + 1)
      (deck.set index ⟨index % CARD_NUMBERS_AMOUNT, index / CARD_NUMBERS_AMOUNT⟩)

/-- The C `initializeDeck`: fills the 52 entries of the array it is given. -/
def initializeDeck (deck : List Card) : List Card :=
  initializeDeckLoop DECK_SIZE 0 deck

/-- The C `swapCards`: exchanges `array[index1]` and `array[index2]`. -/
def swapCards (array : List Card) (index1 index2 : Nat) : List Card :=
  let tmp := cardAt array index1
  (array.set index1 (cardAt array index2)).set index2 tmp

/-- The loop of `shuffleDeck`, `for (index = DECK_SIZE - 1; index > 0; index--)`:
the first argument is `index`, the second the number of calls of `rand()` made
so far. -/
def shuffleLoop (rnd : Nat → Nat) : Nat → Nat → List Card → List Card
  | 0, _, deck => deck
  | index + 1, call, deck =>
    let randomIndex := rnd call % (index + 1 + 1)
    shuffleLoop rnd index (call + 1) (swapCards deck (index + 1) randomIndex)

/-- The C `shuffleDeck`, with the values of `rand()` as the stream `rnd`. -/
def shuffleDeck (deck : List Card) (rnd : Nat → Nat) : List Card :=
  shuffleLoop rnd (DECK_SIZE - 1) 0 deck

/-- A sequence of draws for `shuffleDeck`, one per loop step: the draw of the call
number `k` of `rand()`, which is the step with `index = 51 - k`, is a value
`j` with `0 ≤ j ≤ index`. -/
abbrev Draws : Type := (k : Fin (DECK_SIZE - 1)) → Fin (DECK_SIZE - k)

/-- The values of `rand()` that give the draws `d`: since `d k ≤ index`, the
`randomIndex` computed at that step, `rand() % (index + 1)`, is `d k` itself. -/
def drawStream (d : Draws) : Nat → Nat :=
  fun k => if h : k < DECK_SIZE - 1 then (d ⟨k, h⟩).val else 0

/-- The loop of `drawHands`:
`hands[deckIndex % players].cards[deckIndex / players] = deck[deckIndex]`. -/
def drawHandsLoop (deck : List Card) (players : Nat) : Nat → Nat → List Hand → List Hand
  | 0, _, hands => hands
  | n + 1, deckIndex, hands =>
    let currentPlayer := deckIndex % players
    let handIndex := deckIndex / players
    drawHandsLoop deck players n (deckIndex + 1)
      (hands.set currentPlayer
        { handAt hands currentPlayer with
          cards := (handAt hands currentPlayer).cards.set handIndex (cardAt deck deckIndex) })

/-- The C `drawHands`. -/
def drawHands (deck : List Card) (hands : List Hand) (players : Nat) : List Hand :=
  let cardsToDraw := players * POKER_HAND_SIZE
  drawHandsLoop deck players cardsToDraw 0 hands

/-- One iteration of the loop of `drawHands`, as seen from the memory: the index
at which `deck` is read, the index of the hand and the slot that are written,
and the right operand of `%` and `/`. -/
structure DrawAccess where
  deckIndex : Nat
  currentPlayer : Nat
  handIndex : Nat
  divisor : Nat
deriving DecidableEq, Repr

/-- The loop of `drawHands` again, which besides the hands returns the accesses
of its iterations, in order. -/
def drawHandsTracedLoop (deck : List Card) (players : Nat) :
    Nat → Nat → List Hand → List DrawAccess → List Hand × List DrawAccess
  | 0, _, hands, trace => (hands, trace)
  | n + 1, deckIndex, hands, trace =>
    let currentPlayer := deckIndex % players
    let handIndex := deckIndex / players
    drawHandsTracedLoop deck players n (deckIndex + 1)
      (hands.set currentPlayer
        { handAt hands currentPlayer with
          cards := (handAt hands currentPlayer).cards.set handIndex (cardAt deck deckIndex) })
      (trace ++ [⟨deckIndex, currentPlayer, handIndex, players⟩])

/-- The C `drawHands` with the record of its accesses. -/
def drawHandsTraced (deck : List Card) (hands : List Hand) (players : Nat) :
    List Hand × List DrawAccess :=
  let cardsToDraw := players * POKER_HAND_SIZE
  drawHandsTracedLoop deck players cardsToDraw 0 hands []

/-- The C `getComparable`. -/
def getComparable (card : Card) : Nat :=
  card.rank * CARD_TYPE_AMOUNT + card.suit

/-- The innermost loop of `sortHands`, over `sortIdx`. -/
def sortInnerLoop : Nat → Nat → List Card → List Card
  | 0, _, cards => cards
  | n + 1, sortIdx, cards =>
    let cardA := getComparable (cardAt cards sortIdx)
    let cardB := getComparable (cardAt cards (sortIdx + 1))
    sortInnerLoop n (sortIdx + 1)
      (if cardA > cardB then swapCards cards sortIdx (sortIdx + 1) else cards)

/-- The middle loop of `sortHands`, over `handIdx`. -/
def sortOuterLoop (handSize : Nat) : Nat → Nat → List Card → List Card
  | 0, _, cards => cards
  | n + 1, handIdx, cards =>
    sortOuterLoop handSize n (handIdx + 1) (sortInnerLoop (handSize - handIdx - 1) 0 cards)

/-- What one iteration of the player loop of `sortHands` does to the cards of
`hands[playerIdx]`. -/
def sortCards (cards : List Card) : List Card :=
  sortOuterLoop POKER_HAND_SIZE (POKER_HAND_SIZE - 1) 0 cards

/-- What one iteration of the player loop of `sortHands` does to `hands[playerIdx]`:
the cards are sorted in place, `handRank` is not written. -/
def sortHand (hand : Hand) : Hand :=
  { hand with cards := sortCards hand.cards }

/-- The player loop of `sortHands`. -/
def sortHandsLoop : Nat → Nat → List Hand → List Hand
  | 0, _, hands => hands
  | n + 1, playerIdx, hands =>
    sortHandsLoop n (playerIdx + 1) (hands.set playerIdx (sortHand (handAt hands playerIdx)))

/-- The C `sortHands`. -/
def sortHands (hands : List Hand) (players : Nat) : List Hand :=
  sortHandsLoop players 0 hands

/-! ## `PokerFunctions.c` -/

/-- The loop of `isFlush`. -/
def isFlushLoop (cards : List Card) (flushSuit : Nat) : Nat → Nat → Bool
  | 0, _ => true
  | n + 1, cardIndex =>
    if (cardAt cards cardIndex).suit != flushSuit then false
    else isFlushLoop cards flushSuit n (cardIndex + 1)

/-- The C `isFlush`. -/
def isFlush (cards : List Card) : Bool :=
  isFlushLoop cards (cardAt cards FIRST_CARD).suit (POKER_HAND_SIZE - SECOND_CARD) SECOND_CARD

/-- The loop of `isStraight`: `currentRank++`, then the comparison. -/
def isStraightLoop (cards : List Card) : Nat → Nat → Nat → Bool
  | 0, _, _ => true
  | n + 1, cardIndex, currentRank =>
    if (cardAt cards cardIndex).rank != currentRank + 1 then false
    else isStraightLoop cards n (cardIndex + 1) (currentRank + 1)

/-- The C `isStraight`. -/
def isStraight (cards : List Card) : Bool :=
  if (cardAt cards FIRST_CARD).rank == ACE then
    if (cardAt cards SECOND_CARD).rank == TWO then
      isStraightLoop cards (POKER_HAND_SIZE - SECOND_CARD) SECOND_CARD ACE
    else if (cardAt cards SECOND_CARD).rank == TEN then
      isStraightLoop cards (POKER_HAND_SIZE - SECOND_CARD) SECOND_CARD NINE
    else false
  else
    isStraightLoop cards (POKER_HAND_SIZE - SECOND_CARD) SECOND_CARD (cardAt cards FIRST_CARD).rank

/-- The C `isStraightFlush`. -/
def isStraightFlush (cards : List Card) : Bool :=
  isStraight cards && isFlush cards

/-- Either loop of `isFourOfAKind`: the flag is cleared at a card whose rank
differs from `testRank`. -/
def isFourOfAKindLoop (cards : List Card) (testRank : Nat) : Nat → Nat → Bool → Bool
  | 0, _, flag => flag
  | n + 1, cardIndex, flag =>
    isFourOfAKindLoop cards testRank n (cardIndex + 1)
      (if (cardAt cards cardIndex).rank != testRank then false else flag)

/-- The C `isFourOfAKind`. -/
def isFourOfAKind (cards : List Card) : Bool :=
  let caseFourBottom :=
    isFourOfAKindLoop cards (cardAt cards FIRST_CARD).rank (POKER_HAND_SIZE - 1) 0 true
  let caseFourTop :=
    isFourOfAKindLoop cards (cardAt cards SECOND_CARD).rank
      (POKER_HAND_SIZE - SECOND_CARD) SECOND_CARD true
  caseFourBottom || caseFourTop

/-- The C `isFullHouse`. -/
def isFullHouse (cards : List Card) : Bool :=
  let caseTop :=
    (((cardAt cards FIRST_CARD).rank == (cardAt cards SECOND_CARD).rank) &&
      ((cardAt cards FIRST_CARD).rank == (cardAt cards THIRD_CARD).rank)) &&
    ((cardAt cards FOURTH_CARD).rank == (cardAt cards FIFTH_CARD).rank)
  let caseBottom :=
    (((cardAt cards THIRD_CARD).rank == (cardAt cards FOURTH_CARD).rank) &&
      ((cardAt cards THIRD_CARD).rank == (cardAt cards FIFTH_CARD).rank)) &&
    ((cardAt cards FIRST_CARD).rank == (cardAt cards SECOND_CARD).rank)
  caseTop || caseBottom

/-- The loop of `isThreeOfAKind`. -/
def isThreeOfAKindLoop (cards : List Card) : Nat → Nat → Bool
  | 0, _ => false
  | n + 1, index =>
    let currentRank := (cardAt cards index).rank
    if (currentRank == (cardAt cards (index + 1)).rank) &&
        (currentRank == (cardAt cards (index + 2)).rank) then true
    else isThreeOfAKindLoop cards n (index + 1)

/-- The C `isThreeOfAKind`. -/
def isThreeOfAKind (cards : List Card) : Bool :=
  isThreeOfAKindLoop cards 3 0

/-- The C `isTwoPairs`. -/
def isTwoPairs (cards : List Card) : Bool :=
  let caseTop :=
    ((cardAt cards FIRST_CARD).rank == (cardAt cards SECOND_CARD).rank) &&
    ((cardAt cards THIRD_CARD).rank == (cardAt cards FOURTH_CARD).rank)
  let caseMid :=
    ((cardAt cards FIRST_CARD).rank == (cardAt cards SECOND_CARD).rank) &&
    ((cardAt cards FOURTH_CARD).rank == (cardAt cards FIFTH_CARD).rank)
  let caseBottom :=
    ((cardAt cards SECOND_CARD).rank == (cardAt cards THIRD_CARD).rank) &&
    ((cardAt cards FOURTH_CARD).rank == (cardAt cards FIFTH_CARD).rank)
  caseTop || caseMid || caseBottom

/-- The loop of `isOnePair`. -/
def isOnePairLoop (cards : List Card) : Nat → Nat → Nat → Bool
  | 0, _, _ => false
  | n + 1, cardIndex, previousRank =>
    if (cardAt cards cardIndex).rank == previousRank then true
    else isOnePairLoop cards n (cardIndex + 1) (cardAt cards cardIndex).rank

/-- The C `isOnePair`. -/
def isOnePair (cards : List Card) : Bool :=
  isOnePairLoop cards (POKER_HAND_SIZE - SECOND_CARD) SECOND_CARD (cardAt cards FIRST_CARD).rank

/-- The C `checkHandFor`. -/
def checkHandFor (hand : Hand) (rank : Nat) : Bool :=
  if rank = STRAIGHT_FLUSH then isStraightFlush hand.cards
  else if rank = FOUR_OF_A_KIND then isFourOfAKind hand.cards
  else if rank = FULL_HOUSE then isFullHouse hand.cards
  else if rank = FLUSH then isFlush hand.cards
  else if rank = STRAIGHT then isStraight hand.cards
  else if rank = THREE_OF_A_KIND then isThreeOfAKind hand.cards
  else if rank = TWO_PAIRS then isTwoPairs hand.cards
  else if rank = ONE_PAIR then isOnePair hand.cards
  else false

/-- The `while (!found && currentPokerRank != HIGH_CARD)` loop of `calcPokerRank`;
the arguments are `currentPokerRank` and `found` on entry to the loop test. -/
def calcPokerRankLoop (hand : Hand) : Nat → Bool → Nat
  | 0, _ => 0
  | n + 1, found =>
    if found then n + 1
    else calcPokerRankLoop hand n (checkHandFor hand n)

/-- The C `calcPokerRank`. -/
def calcPokerRank (hand : Hand) : Nat :=
  calcPokerRankLoop hand (STRAIGHT_FLUSH + 1) false

/-- The loop of `rankHands`. -/
def rankHandsLoop : Nat → Nat → List Hand → List Hand
  | 0, _, hands => hands
  | n + 1, playerIndex, hands =>
    let foundRank := calcPokerRank (handAt hands playerIndex)
    rankHandsLoop n (playerIndex + 1)
      (hands.set playerIndex { handAt hands playerIndex with handRank := foundRank })

/-- The C `rankHands`. -/
def rankHands (hands : List Hand) (players : Nat) : List Hand :=
  rankHandsLoop players 0 hands

/-- The loop of `getWinningRank`; the last argument is `currentBestRank`. -/
def getWinningRankLoop (hands : List Hand) : Nat → Nat → Nat → Nat
  | 0, _, currentBestRank => currentBestRank
  | n + 1, playerIndex, currentBestRank =>
    getWinningRankLoop hands n (playerIndex + 1)
      (if (handAt hands playerIndex).handRank > currentBestRank then
        (handAt hands playerIndex).handRank
      else currentBestRank)

/-- The C `getWinningRank`. -/
def getWinningRank (hands : List Hand) (players : Nat) : Nat :=
  getWinningRankLoop hands players 0 0

/-! ## `CardsValidation.c`

A C string is the list of its characters before the terminating `'\0'`; a
character is compared and subtracted by its code.  `invalidInputTerminate` only
prints a message and returns, so it contributes nothing to the values computed
here. -/

/-- The C `validateArgumentsAmount`. -/
def validateArgumentsAmount (argc : Int) : Int :=
  if argc ≠ VALID_ARGUMENTS_AMOUNT then INVALID_INPUT else VALID_INPUT

/-- The C `isCharValidInteger`. -/
def isCharValidInteger (testChar : Char) : Bool :=
  if testChar < FIRST_CHAR_INTEGER || testChar > LAST_CHAR_INTEGER then false else true

/-- The loop of `stringToInt`.  At a character that is not a digit the C code calls
`invalidInputTerminate()`, which prints and returns: the loop goes on and the
character is added like a digit. -/
def stringToIntLoop : List Char → Int → Int
  | [], toInteger => toInteger
  | ch :: rest, toInteger =>
    stringToIntLoop rest
      (toInteger * 10 + ((ch.toNat : Int) - (FIRST_CHAR_INTEGER.toNat : Int)))

/-- The C `stringToInt`. -/
def stringToInt (string : List Char) : Int :=
  stringToIntLoop string 0

/-- The C `validateArgument`. -/
def validateArgument (argument : List Char) : Int :=
  let argumentLength : Int := argument.length
  if argumentLength < MIN_ARGV_LEN || argumentLength > MAX_ARG_LEN then INVALID_INPUT
  else
    let argToInteger := stringToInt argument
    if argToInteger < MIN_INPUT_RANGE || argToInteger > MAX_INPUT_RANGE then INVALID_INPUT
    else argToInteger

/-- The C `validateInputCombination`; `cardsPerHand` is not read. -/
def validateInputCombination (_cardsPerHand : Int) (players : Int) : Int :=
  if (POKER_HAND_SIZE : Int) * players > (DECK_SIZE : Int) then INVALID_INPUT else VALID_INPUT

/-- Reading `argv[i]`. -/
def argAt (argv : List (List Char)) (i : Nat) : List Char :=
  argv.getD i []

/-- The C `validateArguments`. -/
def validateArguments (argc : Int) (argv : List (List Char)) : Int :=
  if validateArgumentsAmount argc = INVALID_INPUT then INVALID_INPUT
  else
    let argCards := validateArgument (argAt argv CARDS_PER_HAND_INDEX)
    let argHands := validateArgument (argAt argv PLAYER_AMOUNT_INDEX)
    if argCards = INVALID_INPUT || argHands = INVALID_INPUT ||
        validateInputCombination argCards argHands = INVALID_INPUT then INVALID_INPUT
    else VALID_INPUT

/-! ## The standard poker categories, as the specification words them

These definitions do not look at the order of the cards. -/

/-- A card of the 52-card deck: rank in `ACE..KING`, suit in `HEART..SPADES`. -/
def validCard (c : Card) : Prop :=
  c.rank ≤ KING ∧ c.suit ≤ SPADES

instance (c : Card) : Decidable (validCard c) := by
  unfold validCard
  infer_instance

/-- How many cards of the hand have rank `r`. -/
def rankCount (cards : List Card) (r : Nat) : Nat :=
  cards.countP (fun c => c.rank == r)

/-- Some rank occurs exactly `n` times in the hand. -/
def someRankOccurs (cards : List Card) (n : Nat) : Bool :=
  cards.any (fun c => rankCount cards c.rank == n)

/-- Two different ranks occur in the hand, one exactly `m` times and another
exactly `n` times. -/
def twoRanksOccur (cards : List Card) (m n : Nat) : Bool :=
  cards.any (fun c => cards.any (fun c' =>
    c.rank != c'.rank && rankCount cards c.rank == m && rankCount cards c'.rank == n))

/-- All cards of the hand are of one suit. -/
def allOneSuit (cards : List Card) : Bool :=
  cards.all (fun c => cards.all (fun c' => c.suit == c'.suit))

/-- The ranks of the hand are, in some order, the ranks `rs`. -/
def ranksAre (cards : List Card) (rs : List Nat) : Bool :=
  decide ((cards.map Card.rank).Perm rs)

/-- The ranks are five consecutive ranks with the Ace low (`A,2,3,4,5` up to
`9,T,J,Q,K`), or they are `T,J,Q,K,A`. -/
def fiveConsecutive (cards : List Card) : Bool :=
  (List.range (NINE + 1)).any (fun r => ranksAre cards [r, r + 1, r + 2, r + 3, r + 4]) ||
    ranksAre cards [TEN, JACK, QUEEN, KING, ACE]

/-- The standard poker category of a five-card hand: the first that applies, from
the strongest down. -/
def standardCategory (cards : List Card) : Nat :=
  if allOneSuit cards && fiveConsecutive cards then STRAIGHT_FLUSH
  else if someRankOccurs cards 4 then FOUR_OF_A_KIND
  else if twoRanksOccur cards 3 2 then FULL_HOUSE
  else if allOneSuit cards then FLUSH
  else if fiveConsecutive cards then STRAIGHT
  else if someRankOccurs cards 3 then THREE_OF_A_KIND
  else if twoRanksOccur cards 2 2 then TWO_PAIRS
  else if someRankOccurs cards 2 then ONE_PAIR
  else HIGH_CARD

/-! ## The classifier loop (`calcPokerRank`) -/

theorem calcPokerRankLoop_false_succ (hand : Hand) (n : Nat) :
    calcPokerRankLoop hand (n + 2) false =
      if checkHandFor hand (n + 1) then n + 1 else calcPokerRankLoop hand (n + 1) false := by
  simp [calcPokerRankLoop]

theorem calcPokerRankLoop_spec (hand : Hand) (n r : Nat) :
    calcPokerRankLoop hand (n + 1) false = r ↔
      r ≤ n ∧ (r ≠ 0 → checkHandFor hand r = true) ∧
        ∀ s, r < s → s ≤ n → checkHandFor hand s = false := by
  induction n with
  | zero =>
    simp only [calcPokerRankLoop, Bool.false_eq_true, if_false]
    constructor
    · rintro rfl
      exact ⟨le_refl _, fun h => absurd rfl h, fun s h1 h2 => by omega⟩
    · rintro ⟨h, -⟩; omega
  | succ n ih =>
    rw [calcPokerRankLoop_false_succ]
    by_cases hc : checkHandFor hand (n + 1) = true
    · simp only [hc, if_true]
      constructor
      · rintro rfl
        exact ⟨le_refl _, fun _ => hc, fun s h1 h2 => by omega⟩
      · rintro ⟨h1, -, h3⟩
        by_contra hne
        have := h3 (n + 1) (by omega) (le_refl _)
        rw [hc] at this
        exact Bool.noConfusion this
    · have hc' : checkHandFor hand (n + 1) = false := by simpa using hc
      simp only [hc', Bool.false_eq_true, if_false, ih]
      constructor
      · rintro ⟨h1, h2, h3⟩
        refine ⟨by omega, h2, fun s hs1 hs2 => ?_⟩
        by_cases hs : s = n + 1
        · rw [hs]; exact hc'
        · exact h3 s hs1 (by omega)
      · rintro ⟨h1, h2, h3⟩
        have hr : r ≠ n + 1 := by
          rintro rfl
          have := h2 (by omega)
          rw [hc'] at this
          exact Bool.noConfusion this
        exact ⟨by omega, h2, fun s hs1 hs2 => h3 s hs1 (by omega)⟩

/-- C2: `calcPokerRank` returns the first category, from `STRAIGHT_FLUSH` down to
`ONE_PAIR`, whose predicate `checkHandFor` holds, and `HIGH_CARD` when none of the
eight holds. -/
theorem calcPokerRank_first_match (hand : Hand) :
    calcPokerRank hand ≤ STRAIGHT_FLUSH ∧
    (∀ r, r ≠ HIGH_CARD →
      (calcPokerRank hand = r ↔
        checkHandFor hand r = true ∧
          ∀ s, r < s → s ≤ STRAIGHT_FLUSH → checkHandFor hand s = false)) ∧
    (calcPokerRank hand = HIGH_CARD ↔
      ∀ s, ONE_PAIR ≤ s → s ≤ STRAIGHT_FLUSH → checkHandFor hand s = false) := by
  have key := calcPokerRankLoop_spec hand STRAIGHT_FLUSH
  refine ⟨((key _).1 rfl).1, fun r hr => ?_, ?_⟩
  · unfold calcPokerRank
    rw [key]
    constructor
    · rintro ⟨-, h2, h3⟩
      exact ⟨h2 hr, h3⟩
    · rintro ⟨h2, h3⟩
      refine ⟨?_, fun _ => h2, h3⟩
      by_contra hgt
      have : checkHandFor hand r = false := by
        unfold checkHandFor
        have h8 : STRAIGHT_FLUSH = 8 := rfl
        simp only [h8] at hgt
        simp [show r ≠ 8 by omega, show r ≠ 7 by omega, show r ≠ 6 by omega,
          show r ≠ 5 by omega, show r ≠ 4 by omega, show r ≠ 3 by omega,
          show r ≠ 2 by omega, show r ≠ 1 by omega]
      rw [this] at h2
      exact Bool.noConfusion h2
  · unfold calcPokerRank
    rw [key]
    constructor
    · rintro ⟨-, -, h3⟩ s hs1 hs2
      exact h3 s hs1 hs2
    · intro h
      exact ⟨Nat.zero_le _, fun h0 => absurd rfl h0, fun s hs1 hs2 => h s hs1 hs2⟩

/-- C3: ranking the nine fixture hands as stored gives the nine categories in
ascending order, `HIGH_CARD` up to `STRAIGHT_FLUSH`, and leaves the cards alone. -/
theorem rankHands_TEST_HANDS :
    (rankHands TEST_HANDS TEST_HANDS_SIZE).map Hand.handRank =
        [HIGH_CARD, ONE_PAIR, TWO_PAIRS, THREE_OF_A_KIND, STRAIGHT, FLUSH, FULL_HOUSE,
          FOUR_OF_A_KIND, STRAIGHT_FLUSH] ∧
      (rankHands TEST_HANDS TEST_HANDS_SIZE).map Hand.cards = TEST_HANDS.map Hand.cards := by
  decide

/-! ## Sorting (`sortHands`) -/

theorem swapCards_length (l : List Card) (i j : Nat) : (swapCards l i j).length = l.length := by
  simp [swapCards]

theorem swapCards_perm (l : List Card) (i j : Nat) (hi : i < l.length) (hj : j < l.length) :
    (swapCards l i j).Perm l := by
  rw [List.perm_iff_count]
  intro x
  simp only [swapCards, cardAt]
  rw [List.getD_eq_getElem _ _ hi, List.getD_eq_getElem _ _ hj]
  rw [List.count_set _ _ _ _ (by simpa using hj), List.count_set _ _ _ _ hi]
  have h1 : (if l[i] == x then 1 else 0) ≤ l.count x := by
    split
    · rename_i h
      have : l[i] = x := by simpa using h
      exact List.count_pos_iff.2 (this ▸ List.getElem_mem _)
    · exact Nat.zero_le _
  rw [List.getElem_set, ite_self]
  have h2 : (if l[j] == x then 1 else 0) ≤ 1 := by split <;> omega
  omega

theorem sortInnerLoop_length (n i : Nat) (l : List Card) :
    (sortInnerLoop n i l).length = l.length := by
  induction n generalizing i l with
  | zero => rfl
  | succ n ih =>
    simp only [sortInnerLoop]
    rw [ih]
    split
    · exact swapCards_length _ _ _
    · rfl

theorem sortInnerLoop_perm (n i : Nat) (l : List Card) (h : i + n < l.length) :
    (sortInnerLoop n i l).Perm l := by
  induction n generalizing i l with
  | zero => exact List.Perm.refl _
  | succ n ih =>
    simp only [sortInnerLoop]
    split
    · refine (ih _ _ ?_).trans (swapCards_perm _ _ _ (by omega) (by omega))
      rw [swapCards_length]; omega
    · exact ih _ _ (by omega)

theorem sortCards_eq (l : List Card) :
    sortCards l =
      sortInnerLoop 1 0 (sortInnerLoop 2 0 (sortInnerLoop 3 0 (sortInnerLoop 4 0 l))) := rfl

theorem sortCards_length (l : List Card) : (sortCards l).length = l.length := by
  simp only [sortCards_eq, sortInnerLoop_length]

theorem sortCards_perm (l : List Card) (h : l.length = POKER_HAND_SIZE) :
    (sortCards l).Perm l := by
  have h5 : l.length = 5 := h
  rw [sortCards_eq]
  refine (sortInnerLoop_perm 1 0 _ ?_).trans ((sortInnerLoop_perm 2 0 _ ?_).trans
    ((sortInnerLoop_perm 3 0 _ ?_).trans (sortInnerLoop_perm 4 0 _ ?_))) <;>
    (try simp only [sortInnerLoop_length]) <;> omega

theorem length_eq_five {α : Type} (l : List α) (h : l.length = 5) :
    ∃ a b c d e, l = [a, b, c, d, e] := by
  match l, h with
  | [a, b, c, d, e], _ => exact ⟨a, b, c, d, e, rfl⟩

theorem sortInnerLoop_pass4 (a b c d e : Card) :
    ∃ a' b' c' d' e', sortInnerLoop 4 0 [a, b, c, d, e] = [a', b', c', d', e'] ∧
      getComparable a' ≤ getComparable e' ∧ getComparable b' ≤ getComparable e' ∧
      getComparable c' ≤ getComparable e' ∧ getComparable d' ≤ getComparable e' := by
  simp only [sortInnerLoop, swapCards, cardAt]
  split_ifs <;> simp only [List.getD_cons_zero, zero_add,
    List.getD_cons_succ, List.set_cons_zero, List.set_cons_succ] at * <;>
    refine ⟨_, _, _, _, _, rfl, ?_⟩ <;> omega

theorem sortInnerLoop_pass3 (a b c d e : Card) :
    ∃ a' b' c' d', sortInnerLoop 3 0 [a, b, c, d, e] = [a', b', c', d', e] ∧
      getComparable a' ≤ getComparable d' ∧ getComparable b' ≤ getComparable d' ∧
      getComparable c' ≤ getComparable d' ∧
      ∀ m, getComparable a ≤ m → getComparable b ≤ m → getComparable c ≤ m →
        getComparable d ≤ m → getComparable d' ≤ m := by
  simp only [sortInnerLoop, swapCards, cardAt]
  split_ifs <;> simp only [List.getD_cons_zero, zero_add,
    List.getD_cons_succ, List.set_cons_zero, List.set_cons_succ] at * <;>
    refine ⟨_, _, _, _, rfl, ?_, ?_, ?_, fun m h1 h2 h3 h4 => ?_⟩ <;> omega

theorem sortInnerLoop_pass2 (a b c d e : Card) :
    ∃ a' b' c', sortInnerLoop 2 0 [a, b, c, d, e] = [a', b', c', d, e] ∧
      getComparable a' ≤ getComparable c' ∧ getComparable b' ≤ getComparable c' ∧
      ∀ m, getComparable a ≤ m → getComparable b ≤ m → getComparable c ≤ m →
        getComparable c' ≤ m := by
  simp only [sortInnerLoop, swapCards, cardAt]
  split_ifs <;> simp only [List.getD_cons_zero, zero_add,
    List.getD_cons_succ, List.set_cons_zero, List.set_cons_succ] at * <;>
    refine ⟨_, _, _, rfl, ?_, ?_, fun m h1 h2 h3 => ?_⟩ <;> omega

theorem sortInnerLoop_pass1 (a b c d e : Card) :
    ∃ a' b', sortInnerLoop 1 0 [a, b, c, d, e] = [a', b', c, d, e] ∧
      getComparable a' ≤ getComparable b' ∧
      ∀ m, getComparable a ≤ m → getComparable b ≤ m → getComparable b' ≤ m := by
  simp only [sortInnerLoop, swapCards, cardAt]
  split_ifs <;> simp only [List.getD_cons_zero, zero_add,
    List.getD_cons_succ, List.set_cons_zero, List.set_cons_succ] at * <;>
    refine ⟨_, _, rfl, ?_, fun m h1 h2 => ?_⟩ <;> omega

/-- The five cards of a sorted hand, named, with the four key inequalities. -/
theorem sortCards_sorted (l : List Card) (h : l.length = POKER_HAND_SIZE) :
    ∃ a b c d e, sortCards l = [a, b, c, d, e] ∧
      getComparable a ≤ getComparable b ∧ getComparable b ≤ getComparable c ∧
      getComparable c ≤ getComparable d ∧ getComparable d ≤ getComparable e := by
  obtain ⟨a, b, c, d, e, rfl⟩ := length_eq_five l h
  rw [sortCards_eq]
  obtain ⟨a1, b1, c1, d1, e1, h4, ha1, hb1, hc1, hd1⟩ := sortInnerLoop_pass4 a b c d e
  obtain ⟨a2, b2, c2, d2, h3, ha2, hb2, hc2, hm2⟩ := sortInnerLoop_pass3 a1 b1 c1 d1 e1
  obtain ⟨a3, b3, c3, h2, ha3, hb3, hm3⟩ := sortInnerLoop_pass2 a2 b2 c2 d2 e1
  obtain ⟨a4, b4, h1, ha4, hm4⟩ := sortInnerLoop_pass1 a3 b3 c3 d2 e1
  rw [h4, h3, h2, h1]
  exact ⟨a4, b4, c3, d2, e1, rfl, ha4, hm4 _ ha3 hb3, hm3 _ ha2 hb2 hc2,
    hm2 _ ha1 hb1 hc1 hd1⟩

/-- A hand whose keys are already ascending is left as it is. -/
theorem sortCards_of_sorted (a b c d e : Card)
    (h1 : getComparable a ≤ getComparable b) (h2 : getComparable b ≤ getComparable c)
    (h3 : getComparable c ≤ getComparable d) (h4 : getComparable d ≤ getComparable e) :
    sortCards [a, b, c, d, e] = [a, b, c, d, e] := by
  have n1 : ¬ getComparable a > getComparable b := by omega
  have n2 : ¬ getComparable b > getComparable c := by omega
  have n3 : ¬ getComparable c > getComparable d := by omega
  have n4 : ¬ getComparable d > getComparable e := by omega
  simp only [sortCards_eq, sortInnerLoop, swapCards, cardAt, List.getD_cons_zero, zero_add,
    List.getD_cons_succ, n1, n2, n3, n4, if_false]

theorem handAt_set (hands : List Hand) (p j : Nat) (x : Hand) :
    handAt (hands.set p x) j = if p = j ∧ p < hands.length then x else handAt hands j := by
  simp only [handAt, List.getD_eq_getElem?_getD, List.getElem?_set]
  by_cases h : p = j
  · subst h
    by_cases h2 : p < hands.length
    · simp [h2]
    · have h3 : hands[p]? = none := List.getElem?_eq_none (by omega)
      simp [h2, h3]
  · simp [h]

theorem sortHand_handAt_of_le (hands : List Hand) (p : Nat) (h : hands.length ≤ p) :
    sortHand (handAt hands p) = handAt hands p := by
  have : handAt hands p = ⟨[], 0⟩ := by
    simp only [handAt]
    exact List.getD_eq_default _ _ h
  rw [this]
  rfl

theorem sortHandsLoop_length (n p : Nat) (hands : List Hand) :
    (sortHandsLoop n p hands).length = hands.length := by
  induction n generalizing p hands with
  | zero => rfl
  | succ n ih => simp only [sortHandsLoop, ih, List.length_set]

theorem handAt_sortHandsLoop (n p j : Nat) (hands : List Hand) :
    handAt (sortHandsLoop n p hands) j =
      if p ≤ j ∧ j < p + n then sortHand (handAt hands j) else handAt hands j := by
  induction n generalizing p hands with
  | zero =>
    simp only [sortHandsLoop]
    rw [if_neg (by omega)]
  | succ n ih =>
    simp only [sortHandsLoop]
    rw [ih, handAt_set]
    by_cases hj : p = j
    · subst hj
      have c1 : ¬ (p + 1 ≤ p ∧ p < p + 1 + n) := by omega
      have c2 : p ≤ p ∧ p < p + (n + 1) := by omega
      rw [if_neg c1, if_pos c2]
      by_cases hlt : p < hands.length
      · rw [if_pos ⟨rfl, hlt⟩]
      · rw [if_neg (fun h => hlt h.2)]
        exact (sortHand_handAt_of_le hands p (by omega)).symm
    · have c0 : ¬ (p = j ∧ p < hands.length) := fun h => hj h.1
      rw [if_neg c0]
      by_cases h2 : p + 1 ≤ j ∧ j < p + 1 + n
      · have c2 : p ≤ j ∧ j < p + (n + 1) := by omega
        rw [if_pos h2, if_pos c2]
      · have c2 : ¬ (p ≤ j ∧ j < p + (n + 1)) := by omega
        rw [if_neg h2, if_neg c2]

theorem handAt_sortHands (hands : List Hand) (players j : Nat) :
    handAt (sortHands hands players) j =
      if j < players then sortHand (handAt hands j) else handAt hands j := by
  simp only [sortHands, handAt_sortHandsLoop, Nat.zero_le, true_and, Nat.zero_add]

theorem sortHands_length (hands : List Hand) (players : Nat) :
    (sortHands hands players).length = hands.length :=
  sortHandsLoop_length _ _ _

theorem hands_ext (l₁ l₂ : List Hand) (hlen : l₁.length = l₂.length)
    (h : ∀ j, j < l₁.length → handAt l₁ j = handAt l₂ j) : l₁ = l₂ := by
  apply List.ext_getElem hlen
  intro j h1 h2
  have := h j h1
  simp only [handAt, List.getD_eq_getElem _ _ h1, List.getD_eq_getElem _ _ h2] at this
  exact this

/-- C5: after `sortHands`, each of the first `players` hands has its five cards in
non-decreasing order of the key `getComparable`: the key in slot `s` is at most
the key in slot `s + 1`, for `s` in `0..3`. -/
theorem sortHands_ascending (hands : List Hand) (players p s : Nat) (hp : p < players)
    (h5 : (handAt hands p).cards.length = POKER_HAND_SIZE) (hs : s < POKER_HAND_SIZE - 1) :
    getComparable (cardAt (handAt (sortHands hands players) p).cards s) ≤
      getComparable (cardAt (handAt (sortHands hands players) p).cards (s + 1)) := by
  rw [handAt_sortHands, if_pos hp]
  obtain ⟨a, b, c, d, e, heq, h1, h2, h3, h4⟩ := sortCards_sorted _ h5
  simp only [sortHand, heq]
  have hs' : s < 4 := hs
  interval_cases s <;> simpa [cardAt]

/-- Witness of C5: a one-hand array, dealt out of order. -/
theorem sortHands_ascending_witness :
    getComparable (cardAt (handAt (sortHands
        [⟨[⟨KING, SPADES⟩, ⟨THREE, DIAMOND⟩, ⟨ACE, HEART⟩, ⟨THREE, HEART⟩, ⟨NINE, CLUBS⟩], 0⟩]
        1) 0).cards 2) ≤
      getComparable (cardAt (handAt (sortHands
        [⟨[⟨KING, SPADES⟩, ⟨THREE, DIAMOND⟩, ⟨ACE, HEART⟩, ⟨THREE, HEART⟩, ⟨NINE, CLUBS⟩], 0⟩]
        1) 0).cards (2 + 1)) :=
  sortHands_ascending _ 1 0 2 (by decide) (by decide) (by decide)

theorem sortHand_cards (h : Hand) : (sortHand h).cards = sortCards h.cards := by
  simp only [sortHand]

theorem sortHand_handRank (h : Hand) : (sortHand h).handRank = h.handRank := by
  simp only [sortHand]

theorem sortHand_sortHand (h : Hand) (h5 : h.cards.length = POKER_HAND_SIZE) :
    sortHand (sortHand h) = sortHand h := by
  obtain ⟨a, b, c, d, e, heq, h1, h2, h3, h4⟩ := sortCards_sorted _ h5
  simp only [sortHand, heq, sortCards_of_sorted a b c d e h1 h2 h3 h4]

/-- C6: `sortHands` only reorders cards within each hand: the number of hands is
kept, the cards of every hand after the call are a permutation of the cards of
the same hand before it, and every `handRank` is unchanged. -/
theorem sortHands_reorders_only (hands : List Hand) (players : Nat)
    (h5 : ∀ p, p < players → p < hands.length →
      (handAt hands p).cards.length = POKER_HAND_SIZE) :
    (sortHands hands players).length = hands.length ∧
      ∀ p, (handAt (sortHands hands players) p).cards.Perm (handAt hands p).cards ∧
        (handAt (sortHands hands players) p).handRank = (handAt hands p).handRank := by
  refine ⟨sortHands_length _ _, fun p => ?_⟩
  rw [handAt_sortHands]
  by_cases hp : p < players
  · rw [if_pos hp]
    rw [sortHand_cards, sortHand_handRank]
    by_cases hlt : p < hands.length
    · exact ⟨sortCards_perm _ (h5 p hp hlt), rfl⟩
    · have hle : hands.length ≤ p := by omega
      have hd : handAt hands p = ⟨[], 0⟩ := by
        simp only [handAt]
        exact List.getD_eq_default _ _ hle
      rw [hd]
      exact ⟨by decide, rfl⟩
  · rw [if_neg hp]
    exact ⟨List.Perm.refl _, rfl⟩

/-- Witness of C6: the nine fixture hands. -/
theorem sortHands_reorders_only_witness :
    (sortHands TEST_HANDS TEST_HANDS_SIZE).length = TEST_HANDS.length ∧
      ∀ p, (handAt (sortHands TEST_HANDS TEST_HANDS_SIZE) p).cards.Perm
          (handAt TEST_HANDS p).cards ∧
        (handAt (sortHands TEST_HANDS TEST_HANDS_SIZE) p).handRank =
          (handAt TEST_HANDS p).handRank :=
  sortHands_reorders_only TEST_HANDS TEST_HANDS_SIZE (by decide)

/-- C7: sorting is idempotent, `sortHands (sortHands hands) = sortHands hands`, and
an array whose first `players` hands are already ascending by key is returned
exactly as it is. -/
theorem sortHands_idempotent (hands : List Hand) (players : Nat)
    (h5 : ∀ p, p < players → p < hands.length →
      (handAt hands p).cards.length = POKER_HAND_SIZE) :
    sortHands (sortHands hands players) players = sortHands hands players ∧
      ((∀ p s, p < players → s < POKER_HAND_SIZE - 1 →
          getComparable (cardAt (handAt hands p).cards s) ≤
            getComparable (cardAt (handAt hands p).cards (s + 1))) →
        sortHands hands players = hands) := by
  constructor
  · apply hands_ext
    · simp only [sortHands_length]
    · intro j hj
      simp only [sortHands_length] at hj
      simp only [handAt_sortHands]
      by_cases hp : j < players
      · simp only [if_pos hp]
        exact sortHand_sortHand _ (h5 j hp hj)
      · simp only [if_neg hp]
  · intro hs
    apply hands_ext
    · simp only [sortHands_length]
    · intro j hj
      simp only [sortHands_length] at hj
      simp only [handAt_sortHands]
      by_cases hp : j < players
      · simp only [if_pos hp]
        obtain ⟨a, b, c, d, e, heq⟩ := length_eq_five _ (h5 j hp hj)
        have s0 := hs j 0 hp (by decide)
        have s1 := hs j 1 hp (by decide)
        have s2 := hs j 2 hp (by decide)
        have s3 := hs j 3 hp (by decide)
        simp only [heq, cardAt, List.getD_cons_zero, List.getD_cons_succ, zero_add] at s0 s1 s2 s3
        have := sortCards_of_sorted a b c d e s0 s1 s2 s3
        cases hh : handAt hands j with
        | mk cs r =>
          rw [hh] at heq
          simp only at heq
          subst heq
          simp only [sortHand, this]
      · simp only [if_neg hp]

/-- Witness of C7: the nine fixture hands. -/
theorem sortHands_idempotent_witness :
    sortHands (sortHands TEST_HANDS TEST_HANDS_SIZE) TEST_HANDS_SIZE =
        sortHands TEST_HANDS TEST_HANDS_SIZE ∧
      ((∀ p s, p < TEST_HANDS_SIZE → s < POKER_HAND_SIZE - 1 →
          getComparable (cardAt (handAt TEST_HANDS p).cards s) ≤
            getComparable (cardAt (handAt TEST_HANDS p).cards (s + 1))) →
        sortHands TEST_HANDS TEST_HANDS_SIZE = TEST_HANDS) :=
  sortHands_idempotent TEST_HANDS TEST_HANDS_SIZE (by decide)

/-! ## The deck (`initializeDeck`, `shuffleDeck`) -/

theorem cardAt_set (l : List Card) (p j : Nat) (x : Card) :
    cardAt (l.set p x) j = if p = j ∧ p < l.length then x else cardAt l j := by
  simp only [cardAt, List.getD_eq_getElem?_getD, List.getElem?_set]
  by_cases h : p = j
  · subst h
    by_cases h2 : p < l.length
    · simp [h2]
    · have h3 : l[p]? = none := List.getElem?_eq_none (by omega)
      simp [h2, h3]
  · simp [h]

theorem initializeDeckLoop_length (n index : Nat) (deck : List Card) :
    (initializeDeckLoop n index deck).length = deck.length := by
  induction n generalizing index deck with
  | zero => rfl
  | succ n ih => simp only [initializeDeckLoop, ih, List.length_set]

theorem cardAt_initializeDeckLoop (n index j : Nat) (deck : List Card) (hj : j < deck.length) :
    cardAt (initializeDeckLoop n index deck) j =
      if index ≤ j ∧ j < index + n then
        ⟨j % CARD_NUMBERS_AMOUNT, j / CARD_NUMBERS_AMOUNT⟩
      else cardAt deck j := by
  induction n generalizing index deck with
  | zero =>
    have c : ¬ (index ≤ j ∧ j < index + 0) := by omega
    simp only [initializeDeckLoop, if_neg c]
  | succ n ih =>
    simp only [initializeDeckLoop]
    rw [ih _ _ (by simpa using hj), cardAt_set]
    by_cases hij : index = j
    · subst hij
      have c1 : ¬ (index + 1 ≤ index ∧ index < index + 1 + n) := by omega
      have c2 : index ≤ index ∧ index < index + (n + 1) := by omega
      rw [if_neg c1, if_pos c2, if_pos ⟨rfl, hj⟩]
    · have c0 : ¬ (index = j ∧ index < deck.length) := fun h => hij h.1
      rw [if_neg c0]
      by_cases h2 : index + 1 ≤ j ∧ j < index + 1 + n
      · have c2 : index ≤ j ∧ j < index + (n + 1) := by omega
        rw [if_pos h2, if_pos c2]
      · have c2 : ¬ (index ≤ j ∧ j < index + (n + 1)) := by omega
        rw [if_neg h2, if_neg c2]

/-- C8: the deck written by `initializeDeck` has the card
`(rank = i mod 13, suit = i div 13)` at every position `i` in `0..51`, so each of
the `13 x 4` pairs `(rank, suit)` is at exactly one position. -/
theorem initializeDeck_canonical (deck : List Card) (hlen : deck.length = DECK_SIZE) :
    (initializeDeck deck).length = DECK_SIZE ∧
      (∀ i, i < DECK_SIZE →
        cardAt (initializeDeck deck) i = ⟨i % CARD_NUMBERS_AMOUNT, i / CARD_NUMBERS_AMOUNT⟩) ∧
      ∀ r s, r < CARD_NUMBERS_AMOUNT → s < CARD_TYPE_AMOUNT →
        ∃! i, i < DECK_SIZE ∧ cardAt (initializeDeck deck) i = ⟨r, s⟩ := by
  have hpos : ∀ i, i < DECK_SIZE →
      cardAt (initializeDeck deck) i = ⟨i % CARD_NUMBERS_AMOUNT, i / CARD_NUMBERS_AMOUNT⟩ := by
    intro i hi
    have c : 0 ≤ i ∧ i < 0 + DECK_SIZE := ⟨Nat.zero_le _, by omega⟩
    rw [initializeDeck, cardAt_initializeDeckLoop _ _ _ _ (by omega), if_pos c]
  refine ⟨by rw [initializeDeck, initializeDeckLoop_length, hlen], hpos, fun r s hr hs => ?_⟩
  have hr' : r < 13 := hr
  have hs' : s < 4 := hs
  refine ⟨s * 13 + r, ⟨by show s * 13 + r < 52; omega, ?_⟩, ?_⟩
  · rw [hpos _ (by show s * 13 + r < 52; omega)]
    have e1 : (s * 13 + r) % 13 = r := by omega
    have e2 : (s * 13 + r) / 13 = s := by omega
    simp only [CARD_NUMBERS_AMOUNT, e1, e2]
  · rintro i ⟨hi, hc⟩
    rw [hpos i hi] at hc
    have h1 : i % 13 = r := congrArg Card.rank hc
    have h2 : i / 13 = s := congrArg Card.suit hc
    omega

/-- Witness of C8: the zero-initialised array that `main` passes. -/
theorem initializeDeck_canonical_witness :
    (initializeDeck (List.replicate 52 ⟨0, 0⟩)).length = DECK_SIZE ∧
      (∀ i, i < DECK_SIZE →
        cardAt (initializeDeck (List.replicate 52 ⟨0, 0⟩)) i =
          ⟨i % CARD_NUMBERS_AMOUNT, i / CARD_NUMBERS_AMOUNT⟩) ∧
      ∀ r s, r < CARD_NUMBERS_AMOUNT → s < CARD_TYPE_AMOUNT →
        ∃! i, i < DECK_SIZE ∧ cardAt (initializeDeck (List.replicate 52 ⟨0, 0⟩)) i = ⟨r, s⟩ :=
  initializeDeck_canonical (List.replicate 52 ⟨0, 0⟩) (by decide)

theorem shuffleLoop_length (rnd : Nat → Nat) (index call : Nat) (deck : List Card) :
    (shuffleLoop rnd index call deck).length = deck.length := by
  induction index generalizing call deck with
  | zero => rfl
  | succ n ih => simp only [shuffleLoop, ih, swapCards_length]

theorem shuffleLoop_perm (rnd : Nat → Nat) (index call : Nat) (deck : List Card)
    (h : index < deck.length) : (shuffleLoop rnd index call deck).Perm deck := by
  induction index generalizing call deck with
  | zero => exact List.Perm.refl _
  | succ n ih =>
    simp only [shuffleLoop]
    have hj : rnd call % (n + 1 + 1) < deck.length :=
      lt_of_lt_of_le (Nat.mod_lt _ (by omega)) (by omega)
    exact (ih _ _ (by rw [swapCards_length]; omega)).trans (swapCards_perm _ _ _ h hj)

/-- C9: whatever values the random source returns, the deck after `shuffleDeck` is
a permutation of the deck before it (same multiset of cards) and still has 52
entries. -/
theorem shuffleDeck_perm (deck : List Card) (rnd : Nat → Nat) (hlen : deck.length = DECK_SIZE) :
    (shuffleDeck deck rnd).Perm deck ∧ (shuffleDeck deck rnd).length = DECK_SIZE := by
  have h52 : deck.length = 52 := hlen
  exact ⟨shuffleLoop_perm _ _ _ _ (by show 52 - 1 < deck.length; omega),
    by rw [shuffleDeck, shuffleLoop_length, hlen]⟩

/-- Witness of C9: the ordered deck and an arithmetic stream of draws. -/
theorem shuffleDeck_perm_witness :
    (shuffleDeck (initializeDeck (List.replicate 52 ⟨0, 0⟩)) (fun k => 7919 * k + 13)).Perm
        (initializeDeck (List.replicate 52 ⟨0, 0⟩)) ∧
      (shuffleDeck (initializeDeck (List.replicate 52 ⟨0, 0⟩)) (fun k => 7919 * k + 13)).length =
        DECK_SIZE :=
  shuffleDeck_perm _ _ (by decide)

/-! ## The shuffle as a bijection -/

theorem cardAt_eq_getElem (l : List Card) (i : Nat) (h : i < l.length) :
    cardAt l i = l[i] := by
  simp only [cardAt, List.getD_eq_getElem _ _ h]

theorem cardAt_append_left (l t : List Card) (i : Nat) (h : i < l.length) :
    cardAt (l ++ t) i = cardAt l i := by
  simp only [cardAt]
  exact List.getD_append _ _ _ _ h

theorem swapCards_append (l t : List Card) (i j : Nat) (hi : i < l.length) (hj : j < l.length) :
    swapCards (l ++ t) i j = swapCards l i j ++ t := by
  simp only [swapCards, cardAt_append_left _ _ _ hi, cardAt_append_left _ _ _ hj]
  rw [List.set_append_left _ _ hi, List.set_append_left _ _ (by simpa using hj)]

theorem cardAt_swapCards_left (l : List Card) (i j : Nat) (hi : i < l.length)
    (hj : j < l.length) : cardAt (swapCards l i j) i = cardAt l j := by
  simp only [swapCards, cardAt_set, List.length_set]
  by_cases h : j = i
  · subst h
    simp only [hj, and_self, if_true]
  · simp only [h, hi, false_and, and_self, if_false, if_true]

theorem shuffleLoop_append (rnd : Nat → Nat) (index call : Nat) (l t : List Card)
    (hlen : l.length = index + 1) :
    shuffleLoop rnd index call (l ++ t) = shuffleLoop rnd index call l ++ t := by
  induction index generalizing call l t with
  | zero => rfl
  | succ n ih =>
    simp only [shuffleLoop]
    have hj : rnd call % (n + 1 + 1) < l.length := by
      rw [hlen]; exact Nat.mod_lt _ (by omega)
    rw [swapCards_append _ _ _ _ (by omega) hj]
    generalize hl1 : swapCards l (n + 1) (rnd call % (n + 1 + 1)) = l1
    have hlen1 : l1.length = n + 2 := by rw [← hl1, swapCards_length, hlen]
    have htake : (l1.take (n + 1)).length = n + 1 := by
      rw [List.length_take, hlen1]; omega
    conv_lhs => rw [← List.take_append_drop (n + 1) l1, List.append_assoc]
    conv_rhs => rw [← List.take_append_drop (n + 1) l1]
    rw [ih _ _ _ htake, ih _ _ _ htake, List.append_assoc]

theorem shuffleLoop_succ (rnd : Nat → Nat) (n call : Nat) (l : List Card)
    (hlen : l.length = n + 2) :
    shuffleLoop rnd (n + 1) call l =
      shuffleLoop rnd n (call + 1)
          ((swapCards l (n + 1) (rnd call % (n + 2))).take (n + 1)) ++
        [cardAt l (rnd call % (n + 2))] := by
  have hj : rnd call % (n + 2) < l.length := by
    rw [hlen]; exact Nat.mod_lt _ (by omega)
  have hlen1 : (swapCards l (n + 1) (rnd call % (n + 2))).length = n + 2 := by
    rw [swapCards_length, hlen]
  have htake : ((swapCards l (n + 1) (rnd call % (n + 2))).take (n + 1)).length = n + 1 := by
    rw [List.length_take, hlen1]; omega
  have hdrop : (swapCards l (n + 1) (rnd call % (n + 2))).drop (n + 1) =
      [cardAt l (rnd call % (n + 2))] := by
    rw [List.drop_eq_getElem_cons (by omega), ← cardAt_eq_getElem,
      cardAt_swapCards_left _ _ _ (by omega) hj, List.drop_of_length_le (by omega)]
  rw [← hdrop, ← shuffleLoop_append _ _ _ _ _ htake, List.take_append_drop]
  rfl

theorem shuffleLoop_congr (d d' : Nat → Nat) (index call : Nat) (l : List Card)
    (h : ∀ k, k < index → d (call + k) = d' (call + k)) :
    shuffleLoop d index call l = shuffleLoop d' index call l := by
  induction index generalizing call l with
  | zero => rfl
  | succ n ih =>
    simp only [shuffleLoop]
    have h0 : d call = d' call := h 0 (by omega)
    rw [h0]
    apply ih
    intro k hk
    have := h (k + 1) (by omega)
    rwa [show call + (k + 1) = call + 1 + k by omega] at this

theorem shuffleLoop_injective (index : Nat) :
    ∀ (call : Nat) (l : List Card) (d d' : Nat → Nat), l.length = index + 1 → l.Nodup →
      (∀ k, k < index → d (call + k) ≤ index - k) →
      (∀ k, k < index → d' (call + k) ≤ index - k) →
      shuffleLoop d index call l = shuffleLoop d' index call l →
      ∀ k, k < index → d (call + k) = d' (call + k) := by
  induction index with
  | zero => intro call l d d' _ _ _ _ _ k hk; omega
  | succ n ih =>
    intro call l d d' hlen hnd hb hb' heq
    rw [shuffleLoop_succ _ _ _ _ hlen, shuffleLoop_succ _ _ _ _ hlen] at heq
    have b0 : d call ≤ n + 1 := hb 0 (by omega)
    have b0' : d' call ≤ n + 1 := hb' 0 (by omega)
    rw [Nat.mod_eq_of_lt (show d call < n + 2 by omega),
      Nat.mod_eq_of_lt (show d' call < n + 2 by omega)] at heq
    obtain ⟨hpre, hlast⟩ := List.append_inj' heq rfl
    have hc : cardAt l (d call) = cardAt l (d' call) := by
      simpa using hlast
    rw [cardAt_eq_getElem _ _ (by omega), cardAt_eq_getElem _ _ (by omega)] at hc
    have hj : d call = d' call := (List.Nodup.getElem_inj_iff hnd).1 hc
    rw [← hj] at hpre
    have hnd1 : ((swapCards l (n + 1) (d call)).take (n + 1)).Nodup :=
      List.Nodup.sublist (List.take_sublist _ _)
        ((List.Perm.nodup_iff (swapCards_perm l _ _ (by omega) (by omega))).2 hnd)
    have hlen1 : ((swapCards l (n + 1) (d call)).take (n + 1)).length = n + 1 := by
      rw [List.length_take, swapCards_length, hlen]; omega
    have hrec := ih (call + 1) _ d d' hlen1 hnd1
      (fun k hk => by
        have := hb (k + 1) (by omega)
        rw [show call + (k + 1) = call + 1 + k by omega] at this
        omega)
      (fun k hk => by
        have := hb' (k + 1) (by omega)
        rw [show call + (k + 1) = call + 1 + k by omega] at this
        omega)
      hpre
    intro k hk
    cases k with
    | zero => exact hj
    | succ k =>
      have := hrec k (by omega)
      rwa [show call + 1 + k = call + (k + 1) by omega] at this

theorem shuffleLoop_surjective (index : Nat) :
    ∀ (call : Nat) (l t : List Card), l.length = index + 1 → t.Perm l →
      ∃ d : Nat → Nat, (∀ k, k < index → d (call + k) ≤ index - k) ∧
        shuffleLoop d index call l = t := by
  induction index with
  | zero =>
    intro call l t hlen hp
    refine ⟨fun _ => 0, fun k hk => by omega, ?_⟩
    match l, hlen with
    | [x], _ => exact (List.perm_singleton.1 hp).symm
  | succ n ih =>
    intro call l t hlen hp
    have htlen : t.length = n + 2 := by rw [hp.length_eq, hlen]
    have ht : t = t.take (n + 1) ++ [cardAt t (n + 1)] := by
      conv_lhs => rw [← List.take_append_drop (n + 1) t]
      rw [List.drop_eq_getElem_cons (by omega), ← cardAt_eq_getElem,
        List.drop_of_length_le (by omega)]
    have hmem : cardAt t (n + 1) ∈ l := by
      rw [cardAt_eq_getElem _ _ (by omega)]
      exact hp.subset (List.getElem_mem _)
    obtain ⟨j, hjlt, hjx⟩ := List.getElem_of_mem hmem
    rw [← cardAt_eq_getElem] at hjx
    have hsw : swapCards l (n + 1) j =
        (swapCards l (n + 1) j).take (n + 1) ++ [cardAt t (n + 1)] := by
      conv_lhs => rw [← List.take_append_drop (n + 1) (swapCards l (n + 1) j)]
      rw [List.drop_eq_getElem_cons (by rw [swapCards_length]; omega), ← cardAt_eq_getElem,
        cardAt_swapCards_left _ _ _ (by omega) hjlt, hjx,
        List.drop_of_length_le (by rw [swapCards_length]; omega)]
    have hperm : (t.take (n + 1)).Perm ((swapCards l (n + 1) j).take (n + 1)) := by
      have h1 : t.Perm (swapCards l (n + 1) j) :=
        hp.trans (swapCards_perm l _ _ (by omega) hjlt).symm
      rw [ht, hsw] at h1
      exact (List.perm_append_right_iff _).1 h1
    have hlen1 : ((swapCards l (n + 1) j).take (n + 1)).length = n + 1 := by
      rw [List.length_take, swapCards_length, hlen]; omega
    obtain ⟨d', hb', hd'⟩ := ih (call + 1) _ _ hlen1 hperm
    refine ⟨fun k => if k = call then j else d' k, fun k hk => ?_, ?_⟩
    · cases k with
      | zero =>
        simp only [Nat.add_zero, if_true]
        omega
      | succ k =>
        have hne : call + (k + 1) ≠ call := by omega
        simp only [if_neg hne]
        have := hb' k (by omega)
        rw [show call + 1 + k = call + (k + 1) by omega] at this
        omega
    · rw [shuffleLoop_succ _ _ _ _ hlen]
      simp only [if_true]
      rw [Nat.mod_eq_of_lt (show j < n + 2 by omega), hjx]
      rw [shuffleLoop_congr _ d' n (call + 1) _ (fun k hk => by
        have hne : call + 1 + k ≠ call := by omega
        simp only [if_neg hne]), hd']
      exact ht.symm

theorem drawStream_eq (d : Draws) (k : Nat) (hk : k < DECK_SIZE - 1) :
    drawStream d k = (d ⟨k, hk⟩).val := by
  simp only [drawStream, dif_pos hk]

theorem drawStream_le (d : Draws) (k : Nat) (hk : k < 51) : drawStream d (0 + k) ≤ 51 - k := by
  have hlt : (d ⟨k, hk⟩).val < 52 - k := (d ⟨k, hk⟩).isLt
  rw [Nat.zero_add, drawStream_eq d k hk]
  omega

/-- C10: on a deck of 52 distinct cards, the results of `shuffleDeck` are
orderings of the deck, and every ordering of the deck is the result of exactly
one sequence of draws `(j_51, ..., j_1)` with `0 ≤ j_i ≤ i`. -/
theorem shuffleDeck_bijection (deck : List Card) (hlen : deck.length = DECK_SIZE)
    (hnd : deck.Nodup) :
    (∀ d : Draws, (shuffleDeck deck (drawStream d)).Perm deck) ∧
      ∀ t : List Card, t.Perm deck → ∃! d : Draws, shuffleDeck deck (drawStream d) = t := by
  have h52 : deck.length = 51 + 1 := hlen
  refine ⟨fun d => shuffleLoop_perm _ _ _ _ (by show 52 - 1 < deck.length; omega),
    fun t ht => ?_⟩
  obtain ⟨d0, hb, hd0⟩ := shuffleLoop_surjective 51 0 deck t h52 ht
  have hfin : ∀ k : Fin (DECK_SIZE - 1), d0 k.val < DECK_SIZE - k.val := by
    intro k
    have h1 : k.val < 51 := k.isLt
    have h2 := hb k.val h1
    rw [Nat.zero_add] at h2
    show d0 k.val < 52 - k.val
    omega
  refine ⟨fun k => ⟨d0 k.val, hfin k⟩, ?_, ?_⟩
  · show shuffleLoop _ 51 0 deck = t
    rw [← hd0]
    apply shuffleLoop_congr
    intro k hk
    rw [Nat.zero_add, drawStream_eq _ k hk]
  · intro d' hd'
    have hd'' : shuffleLoop (drawStream d') 51 0 deck = shuffleLoop d0 51 0 deck := by
      rw [hd0]; exact hd'
    have hagree := shuffleLoop_injective 51 0 deck (drawStream d') d0 h52 hnd
      (drawStream_le d') hb hd''
    funext k
    apply Fin.ext
    have h1 : k.val < 51 := k.isLt
    have := hagree k.val h1
    rw [Nat.zero_add, drawStream_eq d' k.val k.isLt] at this
    exact this

/-- Witness of C10: the ordered deck of `initializeDeck`. -/
theorem shuffleDeck_bijection_witness :
    (∀ d : Draws,
        (shuffleDeck (initializeDeck (List.replicate 52 ⟨0, 0⟩)) (drawStream d)).Perm
          (initializeDeck (List.replicate 52 ⟨0, 0⟩))) ∧
      ∀ t : List Card, t.Perm (initializeDeck (List.replicate 52 ⟨0, 0⟩)) →
        ∃! d : Draws,
          shuffleDeck (initializeDeck (List.replicate 52 ⟨0, 0⟩)) (drawStream d) = t :=
  shuffleDeck_bijection (initializeDeck (List.replicate 52 ⟨0, 0⟩)) (by decide) (by decide)

/-! ## The eight predicates on a five-card array, in closed form -/

theorem isFlush_cons5 (a b c d e : Card) :
    isFlush [a, b, c, d, e] = true ↔
      a.suit = b.suit ∧ a.suit = c.suit ∧ a.suit = d.suit ∧ a.suit = e.suit := by
  simp only [isFlush, isFlushLoop, cardAt, List.getD_cons_zero, List.getD_cons_succ,
    bne_iff_ne, ne_eq, ite_not]
  split_ifs <;> simp <;> omega

theorem isStraight_cons5 (a b c d e : Card) :
    isStraight [a, b, c, d, e] = true ↔
      (b.rank = a.rank + 1 ∧ c.rank = a.rank + 2 ∧ d.rank = a.rank + 3 ∧
          e.rank = a.rank + 4) ∨
        (a.rank = ACE ∧ b.rank = TEN ∧ c.rank = JACK ∧ d.rank = QUEEN ∧ e.rank = KING) := by
  simp only [isStraight, isStraightLoop, cardAt, List.getD_cons_zero, List.getD_cons_succ,
    bne_iff_ne, beq_iff_eq, ne_eq, ite_not, ACE, TWO, NINE, TEN, JACK, QUEEN, KING]
  split_ifs <;> simp <;> omega

theorem isFourOfAKind_cons5 (a b c d e : Card) :
    isFourOfAKind [a, b, c, d, e] = true ↔
      (a.rank = b.rank ∧ b.rank = c.rank ∧ c.rank = d.rank) ∨
        (b.rank = c.rank ∧ c.rank = d.rank ∧ d.rank = e.rank) := by
  simp only [isFourOfAKind, isFourOfAKindLoop, cardAt, List.getD_cons_zero,
    List.getD_cons_succ, bne_iff_ne, ne_eq, ite_not]
  split_ifs <;> simp <;> omega

theorem isFullHouse_cons5 (a b c d e : Card) :
    isFullHouse [a, b, c, d, e] = true ↔
      (a.rank = b.rank ∧ b.rank = c.rank ∧ d.rank = e.rank) ∨
        (a.rank = b.rank ∧ c.rank = d.rank ∧ d.rank = e.rank) := by
  simp only [isFullHouse, cardAt, List.getD_cons_zero, List.getD_cons_succ, Bool.or_eq_true,
    Bool.and_eq_true, beq_iff_eq]
  omega

theorem isThreeOfAKind_cons5 (a b c d e : Card) :
    isThreeOfAKind [a, b, c, d, e] = true ↔
      (a.rank = b.rank ∧ b.rank = c.rank) ∨ (b.rank = c.rank ∧ c.rank = d.rank) ∨
        (c.rank = d.rank ∧ d.rank = e.rank) := by
  simp only [isThreeOfAKind, isThreeOfAKindLoop, cardAt, List.getD_cons_zero,
    List.getD_cons_succ, Bool.and_eq_true, beq_iff_eq]
  split_ifs <;> simp <;> omega

theorem isTwoPairs_cons5 (a b c d e : Card) :
    isTwoPairs [a, b, c, d, e] = true ↔
      (a.rank = b.rank ∧ c.rank = d.rank) ∨ (a.rank = b.rank ∧ d.rank = e.rank) ∨
        (b.rank = c.rank ∧ d.rank = e.rank) := by
  simp only [isTwoPairs, cardAt, List.getD_cons_zero, List.getD_cons_succ, Bool.or_eq_true,
    Bool.and_eq_true, beq_iff_eq]
  omega

theorem isOnePair_cons5 (a b c d e : Card) :
    isOnePair [a, b, c, d, e] = true ↔
      a.rank = b.rank ∨ b.rank = c.rank ∨ c.rank = d.rank ∨ d.rank = e.rank := by
  simp only [isOnePair, isOnePairLoop, cardAt, List.getD_cons_zero, List.getD_cons_succ,
    beq_iff_eq]
  split_ifs <;> simp <;> omega

/-! ## The classifier against the standard categories -/

theorem calcPokerRank_eq (cards : List Card) (r : Nat) :
    calcPokerRank ⟨cards, r⟩ =
      if isStraight cards && isFlush cards then STRAIGHT_FLUSH
      else if isFourOfAKind cards then FOUR_OF_A_KIND
      else if isFullHouse cards then FULL_HOUSE
      else if isFlush cards then FLUSH
      else if isStraight cards then STRAIGHT
      else if isThreeOfAKind cards then THREE_OF_A_KIND
      else if isTwoPairs cards then TWO_PAIRS
      else if isOnePair cards then ONE_PAIR
      else HIGH_CARD := by
  simp only [calcPokerRank, calcPokerRankLoop, checkHandFor, isStraightFlush,
    Bool.false_eq_true, if_false, if_true, Nat.reduceEqDiff, OfNat.ofNat_ne_zero,
    Nat.succ_ne_self, Nat.reduceAdd, STRAIGHT_FLUSH, FOUR_OF_A_KIND, FULL_HOUSE, FLUSH,
    STRAIGHT, THREE_OF_A_KIND, TWO_PAIRS, ONE_PAIR, HIGH_CARD]

theorem allOneSuit_cons5 (a b c d e : Card) :
    allOneSuit [a, b, c, d, e] = true ↔
      a.suit = b.suit ∧ a.suit = c.suit ∧ a.suit = d.suit ∧ a.suit = e.suit := by
  simp only [allOneSuit, List.all_cons, List.all_nil, Bool.and_true, Bool.and_eq_true,
    beq_iff_eq, beq_self_eq_true, true_and, and_true]
  omega

theorem sorted_cons5 (a b c d e : Nat) (h1 : a ≤ b) (h2 : b ≤ c) (h3 : c ≤ d) (h4 : d ≤ e) :
    List.Sorted (· ≤ ·) [a, b, c, d, e] := by
  simp only [List.Sorted, List.pairwise_cons, List.mem_cons, List.mem_singleton,
    List.not_mem_nil, forall_eq_or_imp, forall_eq, false_imp_iff, implies_true,
    List.Pairwise.nil, and_true]
  omega

theorem fiveConsecutive_cons5 (a b c d e : Card) (h1 : a.rank ≤ b.rank)
    (h2 : b.rank ≤ c.rank) (h3 : c.rank ≤ d.rank) (h4 : d.rank ≤ e.rank)
    (hv : e.rank ≤ KING) :
    fiveConsecutive [a, b, c, d, e] = true ↔
      (b.rank = a.rank + 1 ∧ c.rank = a.rank + 2 ∧ d.rank = a.rank + 3 ∧
          e.rank = a.rank + 4) ∨
        (a.rank = ACE ∧ b.rank = TEN ∧ c.rank = JACK ∧ d.rank = QUEEN ∧ e.rank = KING) := by
  have hs := sorted_cons5 _ _ _ _ _ h1 h2 h3 h4
  simp only [KING] at hv
  simp only [fiveConsecutive, ranksAre, Bool.or_eq_true, List.any_eq_true, List.mem_range,
    decide_eq_true_eq, List.map_cons, List.map_nil, ACE, NINE, TEN, JACK, QUEEN, KING]
  constructor
  · rintro (⟨r, -, hp⟩ | hp)
    · have hs2 : List.Sorted (· ≤ ·) [r, r + 1, r + 2, r + 3, r + 4] :=
        sorted_cons5 _ _ _ _ _ (by omega) (by omega) (by omega) (by omega)
      have heq := List.eq_of_perm_of_sorted hp hs hs2
      simp only [List.cons.injEq, and_true] at heq
      omega
    · have hp2 : [a.rank, b.rank, c.rank, d.rank, e.rank].Perm [0, 9, 10, 11, 12] :=
        hp.trans (by decide)
      have heq := List.eq_of_perm_of_sorted hp2 hs (by decide)
      simp only [List.cons.injEq, and_true] at heq
      omega
  · rintro (⟨hb, hc, hd, he⟩ | ⟨ha, hb, hc, hd, he⟩)
    · left
      refine ⟨a.rank, by omega, ?_⟩
      rw [hb, hc, hd, he]
    · right
      rw [ha, hb, hc, hd, he]
      decide

theorem isStraight_eq_fiveConsecutive (a b c d e : Card) (h1 : a.rank ≤ b.rank)
    (h2 : b.rank ≤ c.rank) (h3 : c.rank ≤ d.rank) (h4 : d.rank ≤ e.rank)
    (hv : e.rank ≤ KING) :
    isStraight [a, b, c, d, e] = fiveConsecutive [a, b, c, d, e] := by
  rw [Bool.eq_iff_iff, isStraight_cons5, fiveConsecutive_cons5 a b c d e h1 h2 h3 h4 hv]

theorem isFlush_eq_allOneSuit (a b c d e : Card) :
    isFlush [a, b, c, d, e] = allOneSuit [a, b, c, d, e] := by
  rw [Bool.eq_iff_iff, isFlush_cons5, allOneSuit_cons5]

theorem eq_iff_adjacent (x y z : Nat) (h1 : x ≤ y) (h2 : y ≤ z) :
    ((x = z) = (x = y ∧ y = z)) ∧ ((z = x) = (x = y ∧ y = z)) ∧ ((y = x) = (x = y)) ∧
      ((z = y) = (y = z)) := by
  refine ⟨propext ?_, propext ?_, propext ?_, propext ?_⟩ <;> omega

/-- The five rank counts of a hand with non-decreasing ranks, in terms of the four
equalities between neighbours. -/
theorem rankCount_cons5 (a b c d e : Card) (h1 : a.rank ≤ b.rank)
    (h2 : b.rank ≤ c.rank) (h3 : c.rank ≤ d.rank) (h4 : d.rank ≤ e.rank) :
    rankCount [a, b, c, d, e] a.rank =
        1 + (if a.rank = b.rank then 1 else 0) +
          (if a.rank = b.rank ∧ b.rank = c.rank then 1 else 0) +
          (if a.rank = b.rank ∧ b.rank = c.rank ∧ c.rank = d.rank then 1 else 0) +
          (if a.rank = b.rank ∧ b.rank = c.rank ∧ c.rank = d.rank ∧ d.rank = e.rank
            then 1 else 0) ∧
      rankCount [a, b, c, d, e] b.rank =
        1 + (if a.rank = b.rank then 1 else 0) + (if b.rank = c.rank then 1 else 0) +
          (if b.rank = c.rank ∧ c.rank = d.rank then 1 else 0) +
          (if b.rank = c.rank ∧ c.rank = d.rank ∧ d.rank = e.rank then 1 else 0) ∧
      rankCount [a, b, c, d, e] c.rank =
        1 + (if a.rank = b.rank ∧ b.rank = c.rank then 1 else 0) +
          (if b.rank = c.rank then 1 else 0) + (if c.rank = d.rank then 1 else 0) +
          (if c.rank = d.rank ∧ d.rank = e.rank then 1 else 0) ∧
      rankCount [a, b, c, d, e] d.rank =
        1 + (if a.rank = b.rank ∧ b.rank = c.rank ∧ c.rank = d.rank then 1 else 0) +
          (if b.rank = c.rank ∧ c.rank = d.rank then 1 else 0) +
          (if c.rank = d.rank then 1 else 0) + (if d.rank = e.rank then 1 else 0) ∧
      rankCount [a, b, c, d, e] e.rank =
        1 + (if a.rank = b.rank ∧ b.rank = c.rank ∧ c.rank = d.rank ∧ d.rank = e.rank
            then 1 else 0) +
          (if b.rank = c.rank ∧ c.rank = d.rank ∧ d.rank = e.rank then 1 else 0) +
          (if c.rank = d.rank ∧ d.rank = e.rank then 1 else 0) +
          (if d.rank = e.rank then 1 else 0) := by
  obtain ⟨r1, r2, r3, r4⟩ := eq_iff_adjacent _ _ _ h1 h2
  obtain ⟨r5, r6, -, -⟩ := eq_iff_adjacent _ _ _ h1 (h2.trans h3)
  obtain ⟨r7, r8, -, -⟩ := eq_iff_adjacent _ _ _ h1 (h2.trans (h3.trans h4))
  obtain ⟨r9, r10, -, r11⟩ := eq_iff_adjacent _ _ _ h2 h3
  obtain ⟨r12, r13, -, -⟩ := eq_iff_adjacent _ _ _ h2 (h3.trans h4)
  obtain ⟨r14, r15, -, r16⟩ := eq_iff_adjacent _ _ _ h3 h4
  simp only [rankCount, List.countP_cons, List.countP_nil, beq_iff_eq, if_true,
    r1, r2, r3, r4, r5, r6, r7, r8, r9, r10, r11, r12, r13, r14, r15, r16]
  refine ⟨?_, ?_, ?_, ?_, ?_⟩ <;> omega

theorem someRankOccurs_cons5 (a b c d e : Card) (n : Nat) :
    someRankOccurs [a, b, c, d, e] n = true ↔
      rankCount [a, b, c, d, e] a.rank = n ∨ rankCount [a, b, c, d, e] b.rank = n ∨
        rankCount [a, b, c, d, e] c.rank = n ∨ rankCount [a, b, c, d, e] d.rank = n ∨
        rankCount [a, b, c, d, e] e.rank = n := by
  simp only [someRankOccurs, List.any_cons, List.any_nil, Bool.or_false, Bool.or_eq_true,
    beq_iff_eq]

theorem twoRanksOccur_cons5 (a b c d e : Card) (h1 : a.rank ≤ b.rank)
    (h2 : b.rank ≤ c.rank) (h3 : c.rank ≤ d.rank) (h4 : d.rank ≤ e.rank) :
    (twoRanksOccur [a, b, c, d, e] 3 2 = true ↔
      (a.rank = b.rank ∧ b.rank = c.rank ∧ ¬ c.rank = d.rank ∧ d.rank = e.rank) ∨
        (a.rank = b.rank ∧ ¬ b.rank = c.rank ∧ c.rank = d.rank ∧ d.rank = e.rank)) ∧
    (twoRanksOccur [a, b, c, d, e] 2 2 = true ↔
      (a.rank = b.rank ∧ ¬ b.rank = c.rank ∧ c.rank = d.rank ∧ ¬ d.rank = e.rank) ∨
        (a.rank = b.rank ∧ ¬ b.rank = c.rank ∧ ¬ c.rank = d.rank ∧ d.rank = e.rank) ∨
        (¬ a.rank = b.rank ∧ b.rank = c.rank ∧ ¬ c.rank = d.rank ∧ d.rank = e.rank)) := by
  obtain ⟨r1, r2, r3, r4⟩ := eq_iff_adjacent _ _ _ h1 h2
  obtain ⟨r5, r6, -, -⟩ := eq_iff_adjacent _ _ _ h1 (h2.trans h3)
  obtain ⟨r7, r8, -, -⟩ := eq_iff_adjacent _ _ _ h1 (h2.trans (h3.trans h4))
  obtain ⟨r9, r10, -, r11⟩ := eq_iff_adjacent _ _ _ h2 h3
  obtain ⟨r12, r13, -, -⟩ := eq_iff_adjacent _ _ _ h2 (h3.trans h4)
  obtain ⟨r14, r15, -, r16⟩ := eq_iff_adjacent _ _ _ h3 h4
  obtain ⟨cA, cB, cC, cD, cE⟩ := rankCount_cons5 a b c d e h1 h2 h3 h4
  simp only [twoRanksOccur, List.any_cons, List.any_nil]
  simp only [Bool.or_eq_true, Bool.and_eq_true, bne_iff_ne, ne_eq, beq_iff_eq, Bool.or_false,
    Bool.false_eq_true, or_false, not_true_eq_false, false_and, false_or,
    r1, r2, r3, r4, r5, r6, r7, r8, r9, r10, r11, r12, r13, r14, r15, r16]
  clear r1 r2 r3 r4 r5 r6 r7 r8 r9 r10 r11 r12 r13 r14 r15 r16 h1 h2 h3 h4
  rcases Classical.propComplete (a.rank = b.rank) with q1 | q1 <;>
    rcases Classical.propComplete (b.rank = c.rank) with q2 | q2 <;>
    rcases Classical.propComplete (c.rank = d.rank) with q3 | q3 <;>
    rcases Classical.propComplete (d.rank = e.rank) with q4 | q4 <;>
    simp only [q1, q2, q3, q4, if_true, if_false, and_true, true_and, and_false, false_and,
      Nat.reduceAdd, Nat.add_zero] at cA cB cC cD cE <;>
    simp only [cA, cB, cC, cD, cE, q1, q2, q3, q4, and_true, true_and, and_false, false_and,
      or_false, false_or, or_true, true_or, not_true_eq_false, not_false_eq_true,
      Nat.reduceEqDiff, and_self, or_self, iff_self]

/-- On a five-card array with non-decreasing ranks, not all five of one rank and no
rank above `KING`, `calcPokerRank` is the standard category. -/
theorem calcPokerRank_of_sorted (a b c d e : Card) (r : Nat) (h1 : a.rank ≤ b.rank)
    (h2 : b.rank ≤ c.rank) (h3 : c.rank ≤ d.rank) (h4 : d.rank ≤ e.rank)
    (hne : a.rank ≠ e.rank) (hv : e.rank ≤ KING) :
    calcPokerRank ⟨[a, b, c, d, e], r⟩ = standardCategory [a, b, c, d, e] := by
  have hSc := fiveConsecutive_cons5 a b c d e h1 h2 h3 h4 hv
  have hS : fiveConsecutive [a, b, c, d, e] = true →
      ¬ a.rank = b.rank ∧ ¬ b.rank = c.rank ∧ ¬ c.rank = d.rank ∧ ¬ d.rank = e.rank := by
    intro h
    have := hSc.1 h
    simp only [ACE, TEN, JACK, QUEEN, KING] at this
    omega
  have hne' : ¬ (a.rank = b.rank ∧ b.rank = c.rank ∧ c.rank = d.rank ∧ d.rank = e.rank) := by
    omega
  obtain ⟨cA, cB, cC, cD, cE⟩ := rankCount_cons5 a b c d e h1 h2 h3 h4
  obtain ⟨t32, t22⟩ := twoRanksOccur_cons5 a b c d e h1 h2 h3 h4
  rw [calcPokerRank_eq, isStraight_eq_fiveConsecutive a b c d e h1 h2 h3 h4 hv,
    isFlush_eq_allOneSuit]
  simp only [standardCategory, isFourOfAKind_cons5, isFullHouse_cons5, isThreeOfAKind_cons5,
    isTwoPairs_cons5, isOnePair_cons5, someRankOccurs_cons5, t32, t22, Bool.and_eq_true]
  generalize fiveConsecutive [a, b, c, d, e] = S at hS ⊢
  generalize allOneSuit [a, b, c, d, e] = F
  clear hSc hne h1 h2 h3 h4 hv t32 t22
  rcases Classical.propComplete (a.rank = b.rank) with q1 | q1 <;>
    rcases Classical.propComplete (b.rank = c.rank) with q2 | q2 <;>
    rcases Classical.propComplete (c.rank = d.rank) with q3 | q3 <;>
    rcases Classical.propComplete (d.rank = e.rank) with q4 | q4 <;>
    simp only [q1, q2, q3, q4, if_true, if_false, and_true, true_and, and_false, false_and,
      Nat.reduceAdd, Nat.add_zero, not_true_eq_false, not_false_eq_true, imp_false,
      Bool.not_eq_true, and_self, imp_true_iff] at cA cB cC cD cE hS hne' <;>
    simp only [cA, cB, cC, cD, cE, q1, q2, q3, q4, and_true, true_and, and_false, false_and,
      or_false, false_or, or_true, true_or, not_true_eq_false, not_false_eq_true,
      Nat.reduceEqDiff, and_self, or_self, if_true, if_false] <;>
    cases S <;> cases F <;>
    rfl

/-! ## The standard category does not depend on the order of the cards -/

theorem rankCount_perm {l₁ l₂ : List Card} (h : l₁.Perm l₂) (r : Nat) :
    rankCount l₁ r = rankCount l₂ r := by
  simp only [rankCount]
  exact h.countP_eq _

theorem any_perm {l₁ l₂ : List Card} (h : l₁.Perm l₂) (p q : Card → Bool)
    (hpq : ∀ c, p c = q c) : l₁.any p = l₂.any q := by
  rw [Bool.eq_iff_iff, List.any_eq_true, List.any_eq_true]
  constructor
  · rintro ⟨x, hx, hpx⟩
    exact ⟨x, h.mem_iff.1 hx, by rw [← hpq]; exact hpx⟩
  · rintro ⟨x, hx, hqx⟩
    exact ⟨x, h.mem_iff.2 hx, by rw [hpq]; exact hqx⟩

theorem all_perm {l₁ l₂ : List Card} (h : l₁.Perm l₂) (p q : Card → Bool)
    (hpq : ∀ c, p c = q c) : l₁.all p = l₂.all q := by
  rw [Bool.eq_iff_iff, List.all_eq_true, List.all_eq_true]
  constructor
  · intro hall x hx
    rw [← hpq]; exact hall x (h.mem_iff.2 hx)
  · intro hall x hx
    rw [hpq]; exact hall x (h.mem_iff.1 hx)

theorem someRankOccurs_perm {l₁ l₂ : List Card} (h : l₁.Perm l₂) (n : Nat) :
    someRankOccurs l₁ n = someRankOccurs l₂ n := by
  simp only [someRankOccurs]
  exact any_perm h _ _ (fun c => by rw [rankCount_perm h])

theorem twoRanksOccur_perm {l₁ l₂ : List Card} (h : l₁.Perm l₂) (m n : Nat) :
    twoRanksOccur l₁ m n = twoRanksOccur l₂ m n := by
  simp only [twoRanksOccur]
  refine any_perm h _ _ (fun c => any_perm h _ _ (fun c' => ?_))
  rw [rankCount_perm h, rankCount_perm h]

theorem allOneSuit_perm {l₁ l₂ : List Card} (h : l₁.Perm l₂) :
    allOneSuit l₁ = allOneSuit l₂ := by
  simp only [allOneSuit]
  exact all_perm h _ _ (fun c => all_perm h _ _ (fun c' => rfl))

theorem ranksAre_perm {l₁ l₂ : List Card} (h : l₁.Perm l₂) (rs : List Nat) :
    ranksAre l₁ rs = ranksAre l₂ rs := by
  simp only [ranksAre]
  rw [decide_eq_decide]
  exact ⟨fun h1 => (h.map _).symm.trans h1, fun h2 => (h.map _).trans h2⟩

theorem fiveConsecutive_perm {l₁ l₂ : List Card} (h : l₁.Perm l₂) :
    fiveConsecutive l₁ = fiveConsecutive l₂ := by
  simp only [fiveConsecutive, ranksAre_perm h]

theorem standardCategory_perm {l₁ l₂ : List Card} (h : l₁.Perm l₂) :
    standardCategory l₁ = standardCategory l₂ := by
  simp only [standardCategory, someRankOccurs_perm h, twoRanksOccur_perm h, allOneSuit_perm h,
    fiveConsecutive_perm h]

/-! ## Sorted hands of valid cards -/

theorem getComparable_inj (a b : Card) (ha : a.suit ≤ SPADES) (hb : b.suit ≤ SPADES)
    (h : getComparable a = getComparable b) : a = b := by
  cases a with
  | mk ra sa =>
    cases b with
    | mk rb sb =>
      simp only [getComparable, CARD_TYPE_AMOUNT, SPADES] at h ha hb
      have h1 : ra = rb := by omega
      have h2 : sa = sb := by omega
      rw [h1, h2]

theorem rank_le_of_getComparable_le (a b : Card) (hb : b.suit ≤ SPADES)
    (h : getComparable a ≤ getComparable b) : a.rank ≤ b.rank := by
  simp only [getComparable, CARD_TYPE_AMOUNT, SPADES] at h hb
  omega

theorem map_eq_of_inj (l₁ l₂ : List Card)
    (hinj : ∀ x ∈ l₁, ∀ y ∈ l₂, getComparable x = getComparable y → x = y)
    (h : l₁.map getComparable = l₂.map getComparable) : l₁ = l₂ := by
  induction l₁ generalizing l₂ with
  | nil =>
    cases l₂ with
    | nil => rfl
    | cons y t => simp at h
  | cons x s ih =>
    cases l₂ with
    | nil => simp at h
    | cons y t =>
      simp only [List.map_cons, List.cons.injEq] at h
      have hxy : x = y := hinj x (List.mem_cons_self _ _) y (List.mem_cons_self _ _) h.1
      have hst : s = t := ih t (fun a ha b hb hab =>
        hinj a (List.mem_cons_of_mem _ ha) b (List.mem_cons_of_mem _ hb) hab) h.2
      rw [hxy, hst]

/-- Two hands of valid cards with the same cards, both ascending by key, are the
same array. -/
theorem sorted_perm_unique (l₁ l₂ : List Card) (hp : l₁.Perm l₂)
    (hv : ∀ c ∈ l₁, validCard c)
    (s₁ : List.Sorted (· ≤ ·) (l₁.map getComparable))
    (s₂ : List.Sorted (· ≤ ·) (l₂.map getComparable)) : l₁ = l₂ := by
  apply map_eq_of_inj
  · intro x hx y hy hxy
    exact getComparable_inj x y (hv x hx).2 (hv y (hp.mem_iff.2 hy)).2 hxy
  · exact List.eq_of_perm_of_sorted (hp.map _) s₁ s₂

theorem sortCards_sorted_map (l : List Card) (h : l.length = POKER_HAND_SIZE) :
    List.Sorted (· ≤ ·) ((sortCards l).map getComparable) := by
  obtain ⟨a, b, c, d, e, heq, h1, h2, h3, h4⟩ := sortCards_sorted l h
  rw [heq]
  exact sorted_cons5 _ _ _ _ _ h1 h2 h3 h4

theorem calcPokerRank_congr (h h' : Hand) (hc : h.cards = h'.cards) :
    calcPokerRank h = calcPokerRank h' := by
  cases h with
  | mk cs r =>
    cases h' with
    | mk cs' r' =>
      simp only at hc
      subst hc
      rw [calcPokerRank_eq, calcPokerRank_eq]

/-- C4: the category after sorting does not depend on the order in which the five
valid cards of the hand were dealt. -/
theorem calcPokerRank_sortHands_order_independent (hands hands' : List Hand)
    (players p : Nat) (hp : p < players)
    (h5 : (handAt hands p).cards.length = POKER_HAND_SIZE)
    (hv : ∀ c ∈ (handAt hands p).cards, validCard c)
    (hperm : (handAt hands' p).cards.Perm (handAt hands p).cards) :
    calcPokerRank (handAt (sortHands hands players) p) =
      calcPokerRank (handAt (sortHands hands' players) p) := by
  have h5' : (handAt hands' p).cards.length = POKER_HAND_SIZE := by
    rw [hperm.length_eq]; exact h5
  rw [handAt_sortHands, handAt_sortHands, if_pos hp, if_pos hp]
  apply calcPokerRank_congr
  rw [sortHand_cards, sortHand_cards]
  apply sorted_perm_unique
  · exact (sortCards_perm _ h5).trans (hperm.symm.trans (sortCards_perm _ h5').symm)
  · intro c hc
    exact hv c ((sortCards_perm _ h5).mem_iff.1 hc)
  · exact sortCards_sorted_map _ h5
  · exact sortCards_sorted_map _ h5'

/-- Witness of C4: one hand dealt in two different orders. -/
theorem calcPokerRank_sortHands_order_independent_witness :
    calcPokerRank (handAt (sortHands
        [⟨[⟨KING, SPADES⟩, ⟨THREE, DIAMOND⟩, ⟨ACE, HEART⟩, ⟨THREE, HEART⟩, ⟨NINE, CLUBS⟩], 0⟩]
        1) 0) =
      calcPokerRank (handAt (sortHands
        [⟨[⟨THREE, HEART⟩, ⟨NINE, CLUBS⟩, ⟨KING, SPADES⟩, ⟨ACE, HEART⟩, ⟨THREE, DIAMOND⟩], 0⟩]
        1) 0) :=
  calcPokerRank_sortHands_order_independent _ _ 1 0 (by decide) (by decide)
    (by decide) (by decide)

theorem getComparable_lt_of_ne (a b : Card) (ha : validCard a) (hb : validCard b)
    (hne : a ≠ b) (h : getComparable a ≤ getComparable b) :
    getComparable a < getComparable b :=
  lt_of_le_of_ne h (fun heq => hne (getComparable_inj a b ha.2 hb.2 heq))

/-- C1: for five distinct cards of the 52-card deck, dealt in any order,
`calcPokerRank` applied to the hand after `sortHands` is the standard poker
category of the hand. -/
theorem calcPokerRank_sortHands_standard (hands : List Hand) (players p : Nat)
    (hp : p < players) (h5 : (handAt hands p).cards.length = POKER_HAND_SIZE)
    (hv : ∀ c ∈ (handAt hands p).cards, validCard c)
    (hnd : (handAt hands p).cards.Nodup) :
    calcPokerRank (handAt (sortHands hands players) p) =
      standardCategory (handAt hands p).cards := by
  rw [handAt_sortHands, if_pos hp]
  obtain ⟨a, b, c, d, e, heq, k1, k2, k3, k4⟩ := sortCards_sorted _ h5
  have hperm := sortCards_perm _ h5
  rw [← standardCategory_perm hperm,
    calcPokerRank_congr (sortHand (handAt hands p)) ⟨[a, b, c, d, e], 0⟩
      (by rw [sortHand_cards, heq]),
    heq]
  have hmem : ∀ x ∈ [a, b, c, d, e], validCard x := by
    intro x hx
    rw [← heq] at hx
    exact hv x (hperm.mem_iff.1 hx)
  have hva := hmem a (by simp)
  have hvb := hmem b (by simp)
  have hvc := hmem c (by simp)
  have hvd := hmem d (by simp)
  have hve := hmem e (by simp)
  have hnd' : [a, b, c, d, e].Nodup := by
    rw [← heq]
    exact (hperm.nodup_iff).2 hnd
  simp only [List.nodup_cons, List.mem_cons, List.mem_singleton, List.not_mem_nil, not_or,
    or_false, List.nodup_nil, and_true, not_false_eq_true] at hnd'
  obtain ⟨⟨nab, -, -, -⟩, ⟨nbc, -, -⟩, ⟨ncd, -⟩, nde⟩ := hnd'
  have s1 := getComparable_lt_of_ne a b hva hvb nab k1
  have s2 := getComparable_lt_of_ne b c hvb hvc nbc k2
  have s3 := getComparable_lt_of_ne c d hvc hvd ncd k3
  have s4 := getComparable_lt_of_ne d e hvd hve nde k4
  refine calcPokerRank_of_sorted a b c d e 0
    (rank_le_of_getComparable_le a b hvb.2 k1) (rank_le_of_getComparable_le b c hvc.2 k2)
    (rank_le_of_getComparable_le c d hvd.2 k3) (rank_le_of_getComparable_le d e hve.2 k4)
    ?_ hve.1
  have sa := hva.2
  have se := hve.2
  simp only [getComparable, CARD_TYPE_AMOUNT, SPADES] at s1 s2 s3 s4 sa se
  omega

/-- Witness of C1: a full house dealt out of order. -/
theorem calcPokerRank_sortHands_standard_witness :
    calcPokerRank (handAt (sortHands
        [⟨[⟨TEN, CLUBS⟩, ⟨THREE, DIAMOND⟩, ⟨TEN, DIAMOND⟩, ⟨THREE, HEART⟩, ⟨THREE, SPADES⟩], 0⟩]
        1) 0) =
      standardCategory (handAt
        [⟨[⟨TEN, CLUBS⟩, ⟨THREE, DIAMOND⟩, ⟨TEN, DIAMOND⟩, ⟨THREE, HEART⟩, ⟨THREE, SPADES⟩], 0⟩]
        0).cards :=
  calcPokerRank_sortHands_standard _ 1 0 (by decide) (by decide) (by decide) (by decide)

/-! ## The sort key (`getComparable`) -/

/-- C18: on valid cards the sort key is rank-major and suit-minor, it orders any
two different cards, and equal keys mean equal cards. -/
theorem getComparable_order (a b : Card) (ha : validCard a) (hb : validCard b) :
    (getComparable a < getComparable b ↔
        a.rank < b.rank ∨ (a.rank = b.rank ∧ a.suit < b.suit)) ∧
      (getComparable a = getComparable b → a = b) ∧
      (a ≠ b → getComparable a < getComparable b ∨ getComparable b < getComparable a) := by
  have hinj : getComparable a = getComparable b → a = b :=
    getComparable_inj a b ha.2 hb.2
  refine ⟨?_, hinj, fun hne => ?_⟩
  · have sa := ha.2
    have sb := hb.2
    simp only [getComparable, CARD_TYPE_AMOUNT, SPADES] at sa sb ⊢
    omega
  · rcases Nat.lt_trichotomy (getComparable a) (getComparable b) with h | h | h
    · exact Or.inl h
    · exact absurd (hinj h) hne
    · exact Or.inr h

/-- Witness of C18: the three of hearts and the three of spades. -/
theorem getComparable_order_witness :
    (getComparable ⟨THREE, HEART⟩ < getComparable ⟨THREE, SPADES⟩ ↔
        THREE < THREE ∨ (THREE = THREE ∧ HEART < SPADES)) ∧
      (getComparable ⟨THREE, HEART⟩ = getComparable ⟨THREE, SPADES⟩ →
        (⟨THREE, HEART⟩ : Card) = ⟨THREE, SPADES⟩) ∧
      ((⟨THREE, HEART⟩ : Card) ≠ ⟨THREE, SPADES⟩ →
        getComparable ⟨THREE, HEART⟩ < getComparable ⟨THREE, SPADES⟩ ∨
          getComparable ⟨THREE, SPADES⟩ < getComparable ⟨THREE, HEART⟩) :=
  getComparable_order ⟨THREE, HEART⟩ ⟨THREE, SPADES⟩ (by decide) (by decide)

/-! ## Straights (`isStraight`) -/

/-- C17: on a hand of five valid cards `isStraight` holds exactly when the ranks,
in array order, are `r, r+1, r+2, r+3, r+4` with `r` from `ACE` to `NINE`, or are
`A, T, J, Q, K`; a hand that starts with an Ace and is neither `A,2,3,4,5` nor
`A,T,J,Q,K` is not a straight.  The order of the keys is not used. -/
theorem isStraight_iff (cards : List Card) (h5 : cards.length = POKER_HAND_SIZE)
    (hv : ∀ c ∈ cards, validCard c) :
    (isStraight cards = true ↔
        (∃ r, r ≤ NINE ∧ cards.map Card.rank = [r, r + 1, r + 2, r + 3, r + 4]) ∨
          cards.map Card.rank = [ACE, TEN, JACK, QUEEN, KING]) ∧
      ((cardAt cards FIRST_CARD).rank = ACE →
        cards.map Card.rank ≠ [ACE, TWO, THREE, FOUR, FIVE] →
        cards.map Card.rank ≠ [ACE, TEN, JACK, QUEEN, KING] → isStraight cards = false) := by
  obtain ⟨a, b, c, d, e, rfl⟩ := length_eq_five cards h5
  have he : e.rank ≤ 12 := (hv e (by simp)).1
  have hiff : isStraight [a, b, c, d, e] = true ↔
      (∃ r, r ≤ NINE ∧ [a, b, c, d, e].map Card.rank = [r, r + 1, r + 2, r + 3, r + 4]) ∨
        [a, b, c, d, e].map Card.rank = [ACE, TEN, JACK, QUEEN, KING] := by
    rw [isStraight_cons5]
    simp only [List.map_cons, List.map_nil, List.cons.injEq, and_true, ACE, NINE, TEN, JACK,
      QUEEN, KING]
    constructor
    · rintro (⟨hb, hc, hd, he'⟩ | h)
      · exact Or.inl ⟨a.rank, by omega, rfl, hb, hc, hd, he'⟩
      · exact Or.inr h
    · rintro (⟨r, -, ha, hb, hc, hd, he'⟩ | h)
      · left; omega
      · exact Or.inr h
  refine ⟨hiff, fun hA h1 h2 => ?_⟩
  cases hst : isStraight [a, b, c, d, e] with
  | false => rfl
  | true =>
    exfalso
    rcases hiff.1 hst with ⟨r, -, hr⟩ | h
    · apply h1
      simp only [cardAt, List.getD_cons_zero, FIRST_CARD, ACE] at hA
      simp only [List.map_cons, List.map_nil, List.cons.injEq, and_true, ACE, TWO, THREE, FOUR,
        FIVE] at hr ⊢
      omega
    · exact h2 h

/-- Witness of C17: the wheel of the fixture. -/
theorem isStraight_iff_witness :
    (isStraight (handAt TEST_HANDS 4).cards = true ↔
        (∃ r, r ≤ NINE ∧
          (handAt TEST_HANDS 4).cards.map Card.rank = [r, r + 1, r + 2, r + 3, r + 4]) ∨
          (handAt TEST_HANDS 4).cards.map Card.rank = [ACE, TEN, JACK, QUEEN, KING]) ∧
      ((cardAt (handAt TEST_HANDS 4).cards FIRST_CARD).rank = ACE →
        (handAt TEST_HANDS 4).cards.map Card.rank ≠ [ACE, TWO, THREE, FOUR, FIVE] →
        (handAt TEST_HANDS 4).cards.map Card.rank ≠ [ACE, TEN, JACK, QUEEN, KING] →
        isStraight (handAt TEST_HANDS 4).cards = false) :=
  isStraight_iff (handAt TEST_HANDS 4).cards (by decide) (by decide)

/-! ## Ranking the hands (`rankHands`, `getWinningRank`) -/

theorem rankHandsLoop_length (n p : Nat) (hands : List Hand) :
    (rankHandsLoop n p hands).length = hands.length := by
  induction n generalizing p hands with
  | zero => rfl
  | succ n ih => simp only [rankHandsLoop, ih, List.length_set]

theorem handAt_rankHandsLoop (n p j : Nat) (hands : List Hand) :
    handAt (rankHandsLoop n p hands) j =
      if p ≤ j ∧ j < p + n ∧ j < hands.length then
        { handAt hands j with handRank := calcPokerRank (handAt hands j) }
      else handAt hands j := by
  induction n generalizing p hands with
  | zero =>
    have c : ¬ (p ≤ j ∧ j < p + 0 ∧ j < hands.length) := by omega
    simp only [rankHandsLoop, if_neg c]
  | succ n ih =>
    simp only [rankHandsLoop]
    rw [ih, handAt_set, List.length_set]
    by_cases hj : p = j
    · subst hj
      have c1 : ¬ (p + 1 ≤ p ∧ p < p + 1 + n ∧ p < hands.length) := by omega
      rw [if_neg c1]
      by_cases hlt : p < hands.length
      · have c2 : p ≤ p ∧ p < p + (n + 1) ∧ p < hands.length := by omega
        rw [if_pos ⟨rfl, hlt⟩, if_pos c2]
      · have c2 : ¬ (p ≤ p ∧ p < p + (n + 1) ∧ p < hands.length) := by omega
        rw [if_neg (fun h => hlt h.2), if_neg c2]
    · have c0 : ¬ (p = j ∧ p < hands.length) := fun h => hj h.1
      rw [if_neg c0]
      by_cases h2 : p + 1 ≤ j ∧ j < p + 1 + n ∧ j < hands.length
      · have c2 : p ≤ j ∧ j < p + (n + 1) ∧ j < hands.length := by omega
        rw [if_pos h2, if_pos c2]
      · have c2 : ¬ (p ≤ j ∧ j < p + (n + 1) ∧ j < hands.length) := by omega
        rw [if_neg h2, if_neg c2]

/-- C19: `rankHands` stores `calcPokerRank` of each of the first `players` hands in
its `handRank`, leaves the cards of every hand as they are, in the same order,
and leaves the hands at index `players` and beyond unchanged. -/
theorem rankHands_frame (hands : List Hand) (players : Nat) :
    (rankHands hands players).length = hands.length ∧
      (∀ p, p < players → p < hands.length →
        (handAt (rankHands hands players) p).handRank = calcPokerRank (handAt hands p)) ∧
      (∀ p, (handAt (rankHands hands players) p).cards = (handAt hands p).cards) ∧
      (∀ p, players ≤ p → handAt (rankHands hands players) p = handAt hands p) := by
  refine ⟨rankHandsLoop_length _ _ _, fun p hp hlt => ?_, fun p => ?_, fun p hp => ?_⟩
  · have c : 0 ≤ p ∧ p < 0 + players ∧ p < hands.length := by omega
    rw [rankHands, handAt_rankHandsLoop, if_pos c]
  · rw [rankHands, handAt_rankHandsLoop]
    split <;> rfl
  · have c : ¬ (0 ≤ p ∧ p < 0 + players ∧ p < hands.length) := by omega
    rw [rankHands, handAt_rankHandsLoop, if_neg c]

theorem getWinningRankLoop_spec (hands : List Hand) (n p best : Nat) :
    best ≤ getWinningRankLoop hands n p best ∧
      (∀ j, p ≤ j → j < p + n →
        (handAt hands j).handRank ≤ getWinningRankLoop hands n p best) ∧
      (getWinningRankLoop hands n p best = best ∨
        ∃ j, p ≤ j ∧ j < p + n ∧
          (handAt hands j).handRank = getWinningRankLoop hands n p best) := by
  induction n generalizing p best with
  | zero =>
    simp only [getWinningRankLoop]
    exact ⟨le_refl _, fun j h1 h2 => by omega, Or.inl trivial⟩
  | succ n ih =>
    simp only [getWinningRankLoop]
    obtain ⟨h1, h2, h3⟩ := ih (p + 1)
      (if (handAt hands p).handRank > best then (handAt hands p).handRank else best)
    generalize getWinningRankLoop hands n (p + 1)
      (if (handAt hands p).handRank > best then (handAt hands p).handRank else best) = r
      at h1 h2 h3
    by_cases hgt : (handAt hands p).handRank > best
    · simp only [hgt, if_true] at h1 h3
      refine ⟨by omega, fun j hj1 hj2 => ?_, Or.inr ?_⟩
      · by_cases hjp : j = p
        · rw [hjp]; exact h1
        · exact h2 j (by omega) (by omega)
      · rcases h3 with h3 | ⟨j, hj1, hj2, hj3⟩
        · exact ⟨p, le_refl _, by omega, h3.symm⟩
        · exact ⟨j, by omega, by omega, hj3⟩
    · simp only [hgt, if_false] at h1 h3
      refine ⟨h1, fun j hj1 hj2 => ?_, ?_⟩
      · by_cases hjp : j = p
        · rw [hjp]; omega
        · exact h2 j (by omega) (by omega)
      · rcases h3 with h3 | ⟨j, hj1, hj2, hj3⟩
        · exact Or.inl h3
        · exact Or.inr ⟨j, by omega, by omega, hj3⟩

/-- C13: `getWinningRank` returns the maximum category of the first `players`
hands: for at least one hand the result is at least every `handRank` and is the
`handRank` of some hand; for no hand it is `HIGH_CARD`; on the nine fixture hands
after `rankHands` it is `STRAIGHT_FLUSH`. -/
theorem getWinningRank_max (hands : List Hand) (players : Nat) (hpos : 0 < players)
    (_hlen : players ≤ hands.length) :
    (∀ p, p < players → (handAt hands p).handRank ≤ getWinningRank hands players) ∧
      (∃ p, p < players ∧ (handAt hands p).handRank = getWinningRank hands players) ∧
      getWinningRank hands 0 = HIGH_CARD ∧
      getWinningRank (rankHands TEST_HANDS TEST_HANDS_SIZE) TEST_HANDS_SIZE =
        STRAIGHT_FLUSH := by
  obtain ⟨-, h2, h3⟩ := getWinningRankLoop_spec hands players 0 0
  refine ⟨fun p hp => h2 p (Nat.zero_le _) (by omega), ?_, rfl, by decide⟩
  rcases h3 with h3 | ⟨j, -, hj2, hj3⟩
  · refine ⟨0, hpos, ?_⟩
    have := h2 0 (le_refl _) (by omega)
    rw [getWinningRank]
    omega
  · exact ⟨j, by omega, hj3⟩

/-- Witness of C13: the nine fixture hands after `rankHands`. -/
theorem getWinningRank_max_witness :
    (∀ p, p < TEST_HANDS_SIZE →
        (handAt (rankHands TEST_HANDS TEST_HANDS_SIZE) p).handRank ≤
          getWinningRank (rankHands TEST_HANDS TEST_HANDS_SIZE) TEST_HANDS_SIZE) ∧
      (∃ p, p < TEST_HANDS_SIZE ∧
        (handAt (rankHands TEST_HANDS TEST_HANDS_SIZE) p).handRank =
          getWinningRank (rankHands TEST_HANDS TEST_HANDS_SIZE) TEST_HANDS_SIZE) ∧
      getWinningRank (rankHands TEST_HANDS TEST_HANDS_SIZE) 0 = HIGH_CARD ∧
      getWinningRank (rankHands TEST_HANDS TEST_HANDS_SIZE) TEST_HANDS_SIZE =
        STRAIGHT_FLUSH :=
  getWinningRank_max (rankHands TEST_HANDS TEST_HANDS_SIZE) TEST_HANDS_SIZE (by decide)
    (by decide)

/-! ## Input validation (`CardsValidation.c`) -/

theorem validateArgument_cases (s : List Char) :
    validateArgument s = INVALID_INPUT ∨
      (validateArgument s = stringToInt s ∧ MIN_INPUT_RANGE ≤ stringToInt s ∧
        stringToInt s ≤ MAX_INPUT_RANGE) := by
  simp only [validateArgument, Bool.or_eq_true, decide_eq_true_eq]
  split
  · exact Or.inl rfl
  · split
    · exact Or.inl rfl
    · rename_i h
      simp only [MIN_INPUT_RANGE, MAX_INPUT_RANGE] at h
      exact Or.inr ⟨rfl, by show 1 ≤ stringToInt s; omega,
        by show stringToInt s ≤ 13; omega⟩

/-- C14: when `validateArguments` returns `VALID_INPUT`, `argc` is 3, the integers
that `stringToInt` computes from `argv[1]` and `argv[2]` lie in `1..13`, and the
player count `stringToInt(argv[2])` satisfies `players * 5 <= 52`. -/
theorem validateArguments_valid (argc : Int) (argv : List (List Char))
    (h : validateArguments argc argv = VALID_INPUT) :
    argc = VALID_ARGUMENTS_AMOUNT ∧
      MIN_INPUT_RANGE ≤ stringToInt (argAt argv CARDS_PER_HAND_INDEX) ∧
      stringToInt (argAt argv CARDS_PER_HAND_INDEX) ≤ MAX_INPUT_RANGE ∧
      MIN_INPUT_RANGE ≤ stringToInt (argAt argv PLAYER_AMOUNT_INDEX) ∧
      stringToInt (argAt argv PLAYER_AMOUNT_INDEX) ≤ MAX_INPUT_RANGE ∧
      stringToInt (argAt argv PLAYER_AMOUNT_INDEX) * (POKER_HAND_SIZE : Int) ≤
        (DECK_SIZE : Int) := by
  simp only [validateArguments, validateArgumentsAmount, Bool.or_eq_true,
    decide_eq_true_eq] at h
  by_cases hargc : argc = VALID_ARGUMENTS_AMOUNT
  · simp only [hargc, ne_eq, not_true_eq_false, if_false] at h
    have hne : (VALID_INPUT : Int) ≠ INVALID_INPUT := by decide
    simp only [if_neg hne] at h
    split at h
    · exact absurd h.symm hne
    · rename_i hcond
      simp only [not_or] at hcond
      obtain ⟨⟨hc1, hc2⟩, hc3⟩ := hcond
      rcases validateArgument_cases (argAt argv CARDS_PER_HAND_INDEX) with e1 | ⟨e1, l1, u1⟩
      · exact absurd e1 hc1
      rcases validateArgument_cases (argAt argv PLAYER_AMOUNT_INDEX) with e2 | ⟨e2, l2, u2⟩
      · exact absurd e2 hc2
      refine ⟨hargc, l1, u1, l2, u2, ?_⟩
      rw [e2] at hc3
      simp only [validateInputCombination] at hc3
      split at hc3
      · exact absurd rfl hc3
      · rename_i hle
        simp only [POKER_HAND_SIZE, DECK_SIZE, Nat.cast_ofNat] at hle ⊢
        omega
  · simp only [ne_eq, hargc, not_false_eq_true, if_true] at h
    exact absurd h (by decide)

/-- Witness of C14: `./PokerHands.out 5 4`. -/
theorem validateArguments_valid_witness :
    (3 : Int) = VALID_ARGUMENTS_AMOUNT ∧
      MIN_INPUT_RANGE ≤ stringToInt (argAt [['p'], ['5'], ['4']] CARDS_PER_HAND_INDEX) ∧
      stringToInt (argAt [['p'], ['5'], ['4']] CARDS_PER_HAND_INDEX) ≤ MAX_INPUT_RANGE ∧
      MIN_INPUT_RANGE ≤ stringToInt (argAt [['p'], ['5'], ['4']] PLAYER_AMOUNT_INDEX) ∧
      stringToInt (argAt [['p'], ['5'], ['4']] PLAYER_AMOUNT_INDEX) ≤ MAX_INPUT_RANGE ∧
      stringToInt (argAt [['p'], ['5'], ['4']] PLAYER_AMOUNT_INDEX) * (POKER_HAND_SIZE : Int) ≤
        (DECK_SIZE : Int) :=
  validateArguments_valid 3 [['p'], ['5'], ['4']] (by decide)

/-- C15, the code at the failing input: the one-character argument `":"` is not a
digit for `isCharValidInteger`, yet `validateArgument` does not reject it and
returns 10, because `stringToInt` goes on after `invalidInputTerminate()`. -/
theorem validateArgument_colon :
    isCharValidInteger ':' = false ∧ stringToInt [':'] = 10 ∧
      validateArgument [':'] = 10 ∧ validateArgument [':'] ≠ INVALID_INPUT := by
  decide

/-- C16, the code at the failing inputs: `validateInputCombination` tests
`POKER_HAND_SIZE * players`, not `cardsPerHand * players`: it accepts 13 cards
for 5 players (65 cards) and rejects 1 card for 13 players (13 cards). -/
theorem validateInputCombination_ignores_cardsPerHand :
    validateInputCombination 13 5 = VALID_INPUT ∧ (13 : Int) * 5 > (DECK_SIZE : Int) ∧
      validateInputCombination 1 13 = INVALID_INPUT ∧ (1 : Int) * 13 ≤ (DECK_SIZE : Int) ∧
      ∀ cardsPerHand cardsPerHand' players : Int,
        validateInputCombination cardsPerHand players =
          validateInputCombination cardsPerHand' players := by
  refine ⟨by decide, by decide, by decide, by decide, fun _ _ _ => rfl⟩

/-! ## Dealing (`drawHands`) -/

theorem slot_index (players i p s : Nat) (hp : p < players) :
    s * players + p = i ↔ (i % players = p ∧ i / players = s) := by
  have hpos : 0 < players := by omega
  constructor
  · intro h
    subst h
    constructor
    · rw [Nat.add_comm, Nat.add_mul_mod_self_right, Nat.mod_eq_of_lt hp]
    · rw [Nat.add_comm, Nat.add_mul_div_right _ _ hpos, Nat.div_eq_of_lt hp, Nat.zero_add]
  · rintro ⟨h1, h2⟩
    have := Nat.div_add_mod i players
    rw [h1, h2, Nat.mul_comm] at this
    exact this

theorem slot_lt (players p s : Nat) (hp : p < players) (hs : s < POKER_HAND_SIZE) :
    s * players + p < players * POKER_HAND_SIZE := by
  have h1 : (s + 1) * players ≤ 5 * players := Nat.mul_le_mul_right players hs
  rw [Nat.succ_mul] at h1
  show s * players + p < players * 5
  omega

theorem drawHandsLoop_length (deck : List Card) (players n i : Nat) (hands : List Hand) :
    (drawHandsLoop deck players n i hands).length = hands.length := by
  induction n generalizing i hands with
  | zero => rfl
  | succ n ih => simp only [drawHandsLoop, ih, List.length_set]

/-- One step of the loop of `drawHands` writes one slot of one hand. -/
theorem handAt_drawStep (hands : List Hand) (cp hi p : Nat) (c : Card) :
    handAt (hands.set cp
        { handAt hands cp with cards := (handAt hands cp).cards.set hi c }) p =
      if cp = p ∧ cp < hands.length then
        { handAt hands p with cards := (handAt hands p).cards.set hi c }
      else handAt hands p := by
  rw [handAt_set]
  by_cases h : cp = p ∧ cp < hands.length
  · rw [if_pos h, if_pos h, h.1]
  · rw [if_neg h, if_neg h]

theorem drawStep_cards_length (hands : List Hand) (cp hi p : Nat) (c : Card) :
    (handAt (hands.set cp
        { handAt hands cp with cards := (handAt hands cp).cards.set hi c }) p).cards.length =
      (handAt hands p).cards.length := by
  rw [handAt_drawStep]
  split
  · simp only [List.length_set]
  · rfl

theorem drawStep_handRank (hands : List Hand) (cp hi p : Nat) (c : Card) :
    (handAt (hands.set cp
        { handAt hands cp with cards := (handAt hands cp).cards.set hi c }) p).handRank =
      (handAt hands p).handRank := by
  rw [handAt_drawStep]
  split <;> rfl

theorem drawHandsLoop_cards_length (deck : List Card) (players n i p : Nat)
    (hands : List Hand) :
    (handAt (drawHandsLoop deck players n i hands) p).cards.length =
      (handAt hands p).cards.length := by
  induction n generalizing i hands with
  | zero => rfl
  | succ n ih =>
    simp only [drawHandsLoop]
    rw [ih, drawStep_cards_length]

theorem drawHandsLoop_handRank (deck : List Card) (players n i p : Nat)
    (hands : List Hand) :
    (handAt (drawHandsLoop deck players n i hands) p).handRank =
      (handAt hands p).handRank := by
  induction n generalizing i hands with
  | zero => rfl
  | succ n ih =>
    simp only [drawHandsLoop]
    rw [ih, drawStep_handRank]

theorem slot_drawStep (hands : List Hand) (players i p s : Nat) (c : Card)
    (hpos : 0 < players) (hlen : players ≤ hands.length)
    (h5 : ∀ q, q < players → (handAt hands q).cards.length = POKER_HAND_SIZE)
    (hi : i < players * POKER_HAND_SIZE) :
    cardAt (handAt (hands.set (i % players)
        { handAt hands (i % players) with
          cards := (handAt hands (i % players)).cards.set (i / players) c }) p).cards s =
      if i % players = p ∧ i / players = s then c
      else cardAt (handAt hands p).cards s := by
  have hmod : i % players < players := Nat.mod_lt _ hpos
  have hdiv : i / players < 5 := by
    rw [Nat.div_lt_iff_lt_mul hpos, Nat.mul_comm]
    exact hi
  rw [handAt_drawStep]
  by_cases hp : i % players = p
  · have c1 : i % players = p ∧ i % players < hands.length := ⟨hp, by omega⟩
    rw [if_pos c1]
    simp only [cardAt_set]
    have hl : (handAt hands p).cards.length = 5 := h5 p (by omega)
    by_cases hs : i / players = s
    · rw [if_pos ⟨hs, by omega⟩, if_pos ⟨hp, hs⟩]
    · rw [if_neg (fun h => hs h.1), if_neg (fun h => hs h.2)]
  · rw [if_neg (fun h => hp h.1), if_neg (fun h => hp h.1)]

/-- The loop invariant of `drawHands`: after the iterations for the deck positions
`i .. i + n - 1`, the slot `s` of hand `p` holds `deck[s * players + p]` when
that position is one of them, and what it held before otherwise. -/
theorem slot_drawHandsLoop (deck : List Card) (players : Nat) (hpos : 0 < players)
    (n i : Nat) (hands : List Hand) (hlen : players ≤ hands.length)
    (h5 : ∀ q, q < players → (handAt hands q).cards.length = POKER_HAND_SIZE)
    (hn : i + n ≤ players * POKER_HAND_SIZE) (p s : Nat) :
    cardAt (handAt (drawHandsLoop deck players n i hands) p).cards s =
      if p < players ∧ s < POKER_HAND_SIZE ∧ i ≤ s * players + p ∧ s * players + p < i + n
      then cardAt deck (s * players + p)
      else cardAt (handAt hands p).cards s := by
  induction n generalizing i hands with
  | zero =>
    have c : ¬ (p < players ∧ s < POKER_HAND_SIZE ∧ i ≤ s * players + p ∧
        s * players + p < i + 0) := by omega
    simp only [drawHandsLoop, if_neg c]
  | succ n ih =>
    simp only [drawHandsLoop]
    have hi : i < players * POKER_HAND_SIZE := by omega
    rw [ih (i + 1) _ (by rw [List.length_set]; exact hlen)
      (fun q hq => by rw [drawStep_cards_length]; exact h5 q hq) (by omega),
      slot_drawStep hands players i p s _ hpos hlen h5 hi]
    by_cases c1 : p < players ∧ s < POKER_HAND_SIZE ∧ i + 1 ≤ s * players + p ∧
        s * players + p < i + 1 + n
    · have c2 : p < players ∧ s < POKER_HAND_SIZE ∧ i ≤ s * players + p ∧
          s * players + p < i + (n + 1) := by omega
      rw [if_pos c1, if_pos c2]
    · rw [if_neg c1]
      by_cases c3 : i % players = p ∧ i / players = s
      · have hp : p < players := by rw [← c3.1]; exact Nat.mod_lt _ hpos
        have hk : s * players + p = i := (slot_index players i p s hp).2 c3
        have hs : s < POKER_HAND_SIZE := by
          rw [← c3.2]
          show i / players < 5
          rw [Nat.div_lt_iff_lt_mul hpos, Nat.mul_comm]
          exact hi
        have c2 : p < players ∧ s < POKER_HAND_SIZE ∧ i ≤ s * players + p ∧
            s * players + p < i + (n + 1) := ⟨hp, hs, by omega, by omega⟩
        rw [if_pos c3, if_pos c2, hk]
      · have c2 : ¬ (p < players ∧ s < POKER_HAND_SIZE ∧ i ≤ s * players + p ∧
            s * players + p < i + (n + 1)) := by
          rintro ⟨hp, hs, h1, h2⟩
          have hk : s * players + p = i := by
            by_contra hne
            exact c1 ⟨hp, hs, by omega, by omega⟩
          exact c3 ((slot_index players i p s hp).1 hk)
        rw [if_neg c3, if_neg c2]

theorem slot_drawHands (deck : List Card) (hands : List Hand) (players p s : Nat)
    (hlen : players ≤ hands.length)
    (h5 : ∀ q, q < players → (handAt hands q).cards.length = POKER_HAND_SIZE)
    (hp : p < players) (hs : s < POKER_HAND_SIZE) :
    cardAt (handAt (drawHands deck hands players) p).cards s =
      cardAt deck (s * players + p) := by
  have hpos : 0 < players := by omega
  have hlt := slot_lt players p s hp hs
  rw [drawHands, slot_drawHandsLoop deck players hpos _ 0 hands hlen h5 (by omega) p s,
    if_pos ⟨hp, hs, Nat.zero_le _, by omega⟩]

/-- C11: `drawHands` deals round-robin: slot `s` of the hand of player `p` receives
`deck[s * players + p]`; equivalently the card at deck position `k` below
`players * 5` is in hand `k mod players` at slot `k div players`. -/
theorem drawHands_round_robin (deck : List Card) (hands : List Hand) (players : Nat)
    (hpos : 1 ≤ players) (_hdeck : players * POKER_HAND_SIZE ≤ DECK_SIZE)
    (_hdlen : deck.length = DECK_SIZE) (hlen : players ≤ hands.length)
    (h5 : ∀ q, q < players → (handAt hands q).cards.length = POKER_HAND_SIZE) :
    (∀ p s, p < players → s < POKER_HAND_SIZE →
        cardAt (handAt (drawHands deck hands players) p).cards s =
          cardAt deck (s * players + p)) ∧
      (∀ k, k < players * POKER_HAND_SIZE →
        cardAt (handAt (drawHands deck hands players) (k % players)).cards (k / players) =
          cardAt deck k) := by
  refine ⟨fun p s hp hs => slot_drawHands deck hands players p s hlen h5 hp hs,
    fun k hk => ?_⟩
  have hmod : k % players < players := Nat.mod_lt _ hpos
  have hdiv : k / players < POKER_HAND_SIZE := by
    show k / players < 5
    rw [Nat.div_lt_iff_lt_mul hpos, Nat.mul_comm]
    exact hk
  rw [slot_drawHands deck hands players _ _ hlen h5 hmod hdiv,
    (slot_index players k (k % players) (k / players) hmod).2 ⟨rfl, rfl⟩]

/-- Witness of C11: three players, the ordered deck. -/
theorem drawHands_round_robin_witness :
    (∀ p s, p < 3 → s < POKER_HAND_SIZE →
        cardAt (handAt (drawHands (initializeDeck (List.replicate 52 ⟨0, 0⟩))
            (List.replicate 3 ⟨List.replicate 5 ⟨0, 0⟩, 0⟩) 3) p).cards s =
          cardAt (initializeDeck (List.replicate 52 ⟨0, 0⟩)) (s * 3 + p)) ∧
      (∀ k, k < 3 * POKER_HAND_SIZE →
        cardAt (handAt (drawHands (initializeDeck (List.replicate 52 ⟨0, 0⟩))
            (List.replicate 3 ⟨List.replicate 5 ⟨0, 0⟩, 0⟩) 3) (k % 3)).cards (k / 3) =
          cardAt (initializeDeck (List.replicate 52 ⟨0, 0⟩)) k) :=
  drawHands_round_robin (initializeDeck (List.replicate 52 ⟨0, 0⟩))
    (List.replicate 3 ⟨List.replicate 5 ⟨0, 0⟩, 0⟩) 3 (by decide) (by decide) (by decide)
    (by decide) (by decide)

theorem eq_map_range_getD {α : Type} (l : List α) (d : α) :
    l = (List.range l.length).map (fun i => l.getD i d) := by
  apply List.ext_getElem
  · simp only [List.length_map, List.length_range]
  · intro n h1 h2
    simp only [List.getElem_map, List.getElem_range, List.getD_eq_getElem _ _ h1]

theorem take_eq_map_range_cardAt (deck : List Card) (m : Nat) (hm : m ≤ deck.length) :
    deck.take m = (List.range m).map (cardAt deck) := by
  apply List.ext_getElem
  · simp only [List.length_take, List.length_map, List.length_range]
    omega
  · intro n h1 h2
    have hn : n < deck.length := by
      simp only [List.length_map, List.length_range] at h2
      omega
    simp only [List.getElem_take, List.getElem_map, List.getElem_range, cardAt,
      List.getD_eq_getElem _ _ hn]

theorem flatMap_cards_eq (l : List Hand) :
    l.flatMap Hand.cards = (List.range l.length).flatMap (fun p => (handAt l p).cards) := by
  conv_lhs => rw [eq_map_range_getD l ⟨[], 0⟩, List.flatMap_map]
  rfl

/-- The deck positions in the order in which they lie in the hands after
`drawHands`: hand after hand, slot after slot. -/
theorem dealt_positions_perm (players : Nat) (hpos : 0 < players) :
    ((List.range players).flatMap
        (fun p => (List.range POKER_HAND_SIZE).map (fun s => s * players + p))).Perm
      (List.range (players * POKER_HAND_SIZE)) := by
  apply List.Perm.symm
  apply List.Subperm.perm_of_length_le
  · apply List.Nodup.subperm (List.nodup_range _)
    intro k hk
    rw [List.mem_range] at hk
    rw [List.mem_flatMap]
    refine ⟨k % players, List.mem_range.2 (Nat.mod_lt _ hpos), ?_⟩
    rw [List.mem_map]
    refine ⟨k / players, List.mem_range.2 ?_, ?_⟩
    · show k / players < 5
      rw [Nat.div_lt_iff_lt_mul hpos, Nat.mul_comm]
      exact hk
    · exact (slot_index players k (k % players) (k / players) (Nat.mod_lt _ hpos)).2
        ⟨rfl, rfl⟩
  · rw [List.length_flatMap]
    simp only [Function.comp_def, List.length_map, List.length_range, List.map_const',
      List.sum_const_nat]
    exact Nat.le_refl _

/-- After `drawHands`, the cards of the `players` hands, hand after hand, are a
permutation of the first `players * 5` cards of the deck. -/
theorem drawHands_flatMap_perm (deck : List Card) (hands : List Hand) (players : Nat)
    (hpos : 0 < players) (hdeck : players * POKER_HAND_SIZE ≤ deck.length)
    (hlen : hands.length = players)
    (h5 : ∀ q, q < players → (handAt hands q).cards.length = POKER_HAND_SIZE) :
    ((drawHands deck hands players).flatMap Hand.cards).Perm
      (deck.take (players * POKER_HAND_SIZE)) := by
  have hR : (drawHands deck hands players).length = players := by
    rw [drawHands, drawHandsLoop_length, hlen]
  have hcards : ∀ p, p ∈ List.range players →
      (handAt (drawHands deck hands players) p).cards =
        (List.range POKER_HAND_SIZE).map (fun s => cardAt deck (s * players + p)) := by
    intro p hp
    rw [List.mem_range] at hp
    have hl : (handAt (drawHands deck hands players) p).cards.length = POKER_HAND_SIZE := by
      rw [drawHands, drawHandsLoop_cards_length]
      exact h5 p hp
    conv_lhs => rw [eq_map_range_getD (handAt (drawHands deck hands players) p).cards ⟨0, 0⟩]
    rw [hl]
    apply List.map_congr_left
    intro s hs
    rw [List.mem_range] at hs
    exact slot_drawHands deck hands players p s (by omega) h5 hp hs
  rw [flatMap_cards_eq, hR, List.flatMap_congr hcards,
    take_eq_map_range_cardAt deck _ hdeck]
  have hmap : (List.range players).flatMap
        (fun p => (List.range POKER_HAND_SIZE).map (fun s => cardAt deck (s * players + p))) =
      ((List.range players).flatMap
        (fun p => (List.range POKER_HAND_SIZE).map (fun s => s * players + p))).map
          (cardAt deck) := by
    rw [List.map_flatMap]
    apply List.flatMap_congr
    intro p _
    rw [List.map_map]
    rfl
  rw [hmap]
  exact (dealt_positions_perm players hpos).map _

/-- C12: the hands produced by `drawHands` partition the first `players * 5` cards
of the deck: each hand has five cards, and the cards of all hands together are
a permutation of `deck[0 .. players * 5 - 1]`. -/
theorem drawHands_partition (deck : List Card) (hands : List Hand) (players : Nat)
    (hpos : 1 ≤ players) (hdeck : players * POKER_HAND_SIZE ≤ DECK_SIZE)
    (hdlen : deck.length = DECK_SIZE) (hlen : hands.length = players)
    (h5 : ∀ q, q < players → (handAt hands q).cards.length = POKER_HAND_SIZE) :
    (drawHands deck hands players).length = players ∧
      (∀ p, p < players →
        (handAt (drawHands deck hands players) p).cards.length = POKER_HAND_SIZE) ∧
      ((drawHands deck hands players).flatMap Hand.cards).Perm
        (deck.take (players * POKER_HAND_SIZE)) := by
  refine ⟨by rw [drawHands, drawHandsLoop_length, hlen], fun p hp => ?_,
    drawHands_flatMap_perm deck hands players hpos (by rw [hdlen]; exact hdeck) hlen h5⟩
  rw [drawHands, drawHandsLoop_cards_length]
  exact h5 p hp

/-- Witness of C12: three players, the ordered deck. -/
theorem drawHands_partition_witness :
    (drawHands (initializeDeck (List.replicate 52 ⟨0, 0⟩))
        (List.replicate 3 ⟨List.replicate 5 ⟨0, 0⟩, 0⟩) 3).length = 3 ∧
      (∀ p, p < 3 →
        (handAt (drawHands (initializeDeck (List.replicate 52 ⟨0, 0⟩))
          (List.replicate 3 ⟨List.replicate 5 ⟨0, 0⟩, 0⟩) 3) p).cards.length =
            POKER_HAND_SIZE) ∧
      ((drawHands (initializeDeck (List.replicate 52 ⟨0, 0⟩))
          (List.replicate 3 ⟨List.replicate 5 ⟨0, 0⟩, 0⟩) 3).flatMap Hand.cards).Perm
        ((initializeDeck (List.replicate 52 ⟨0, 0⟩)).take (3 * POKER_HAND_SIZE)) :=
  drawHands_partition (initializeDeck (List.replicate 52 ⟨0, 0⟩))
    (List.replicate 3 ⟨List.replicate 5 ⟨0, 0⟩, 0⟩) 3 (by decide) (by decide) (by decide)
    (by decide) (by decide)

/-! ## From the ordered deck to the sorted hands -/

theorem initializeDeck_eq (deck : List Card) (hlen : deck.length = DECK_SIZE) :
    initializeDeck deck =
      (List.range DECK_SIZE).map
        (fun i => (⟨i % CARD_NUMBERS_AMOUNT, i / CARD_NUMBERS_AMOUNT⟩ : Card)) := by
  have hl : (initializeDeck deck).length = DECK_SIZE := by
    rw [initializeDeck, initializeDeckLoop_length, hlen]
  conv_lhs => rw [eq_map_range_getD (initializeDeck deck) ⟨0, 0⟩]
  rw [hl]
  apply List.map_congr_left
  intro i hi
  rw [List.mem_range] at hi
  have c : 0 ≤ i ∧ i < 0 + DECK_SIZE := ⟨Nat.zero_le _, by omega⟩
  show cardAt (initializeDeck deck) i = _
  rw [initializeDeck, cardAt_initializeDeckLoop _ _ _ _ (by omega), if_pos c]

theorem initializeDeck_nodup (deck : List Card) (hlen : deck.length = DECK_SIZE) :
    (initializeDeck deck).Nodup := by
  rw [initializeDeck_eq deck hlen]
  decide

theorem handAt_map_sortHand (hands : List Hand) (j : Nat) (hj : j < hands.length) :
    handAt (hands.map sortHand) j = sortHand (handAt hands j) := by
  simp only [handAt]
  rw [List.getD_eq_getElem _ _ (by simpa using hj), List.getD_eq_getElem _ _ hj,
    List.getElem_map]

theorem sortHands_eq_map (hands : List Hand) (players : Nat) (h : hands.length ≤ players) :
    sortHands hands players = hands.map sortHand := by
  apply hands_ext
  · rw [sortHands_length, List.length_map]
  · intro j hj
    rw [sortHands_length] at hj
    rw [handAt_sortHands, if_pos (by omega), handAt_map_sortHand _ _ hj]

/-- C20: end to end, no card is dealt twice: after `initializeDeck`, `shuffleDeck`
(with any values of `rand()`), `drawHands` and `sortHands` for 1 to 10 players,
the `5 * players` cards in the hands are pairwise distinct. -/
theorem dealt_cards_distinct (deck : List Card) (hands : List Hand) (rnd : Nat → Nat)
    (players : Nat) (hdlen : deck.length = DECK_SIZE) (hpos : 1 ≤ players)
    (hmax : players ≤ 10) (hlen : hands.length = players)
    (h5 : ∀ q, q < players → (handAt hands q).cards.length = POKER_HAND_SIZE) :
    ((sortHands (drawHands (shuffleDeck (initializeDeck deck) rnd) hands players)
        players).flatMap Hand.cards).Nodup ∧
      ((sortHands (drawHands (shuffleDeck (initializeDeck deck) rnd) hands players)
        players).flatMap Hand.cards).length = players * POKER_HAND_SIZE := by
  have hinit : (initializeDeck deck).length = 52 := by
    rw [initializeDeck, initializeDeckLoop_length, hdlen]
  have hshuf : (shuffleDeck (initializeDeck deck) rnd).Perm (initializeDeck deck) :=
    shuffleLoop_perm _ _ _ _ (by show 52 - 1 < (initializeDeck deck).length; omega)
  have hnd : (shuffleDeck (initializeDeck deck) rnd).Nodup :=
    (hshuf.nodup_iff).2 (initializeDeck_nodup deck hdlen)
  have hslen : (shuffleDeck (initializeDeck deck) rnd).length = 52 := by
    rw [hshuf.length_eq, hinit]
  have hdraw := drawHands_flatMap_perm (shuffleDeck (initializeDeck deck) rnd) hands players
    hpos (by rw [hslen]; show players * 5 ≤ 52; omega) hlen h5
  have hRlen : (drawHands (shuffleDeck (initializeDeck deck) rnd) hands players).length =
      players := by
    rw [drawHands, drawHandsLoop_length, hlen]
  have hsort : ((sortHands (drawHands (shuffleDeck (initializeDeck deck) rnd) hands players)
      players).flatMap Hand.cards).Perm
      ((drawHands (shuffleDeck (initializeDeck deck) rnd) hands players).flatMap
        Hand.cards) := by
    rw [sortHands_eq_map _ _ (by omega), List.flatMap_map]
    apply List.Perm.flatMap_left
    intro h hmem
    obtain ⟨j, hj, rfl⟩ := List.getElem_of_mem hmem
    have hcl : (handAt (drawHands (shuffleDeck (initializeDeck deck) rnd) hands players)
        j).cards.length = POKER_HAND_SIZE := by
      rw [drawHands, drawHandsLoop_cards_length]
      exact h5 j (by omega)
    simp only [handAt, List.getD_eq_getElem _ _ hj] at hcl
    show (sortHand _).cards.Perm _
    rw [sortHand_cards]
    exact sortCards_perm _ hcl
  have hall := hsort.trans hdraw
  refine ⟨(hall.nodup_iff).2 (List.Nodup.sublist (List.take_sublist _ _) hnd), ?_⟩
  rw [hall.length_eq, List.length_take, hslen]
  show min (players * 5) 52 = players * 5
  omega

/-- Witness of C20: two players and an arithmetic stream of draws. -/
theorem dealt_cards_distinct_witness :
    ((sortHands (drawHands
        (shuffleDeck (initializeDeck (List.replicate 52 ⟨0, 0⟩)) (fun k => 7919 * k + 13))
        (List.replicate 2 ⟨List.replicate 5 ⟨0, 0⟩, 0⟩) 2) 2).flatMap Hand.cards).Nodup ∧
      ((sortHands (drawHands
        (shuffleDeck (initializeDeck (List.replicate 52 ⟨0, 0⟩)) (fun k => 7919 * k + 13))
        (List.replicate 2 ⟨List.replicate 5 ⟨0, 0⟩, 0⟩) 2) 2).flatMap Hand.cards).length =
        2 * POKER_HAND_SIZE :=
  dealt_cards_distinct (List.replicate 52 ⟨0, 0⟩) (List.replicate 2 ⟨List.replicate 5 ⟨0, 0⟩, 0⟩)
    (fun k => 7919 * k + 13) 2 (by decide) (by decide) (by decide) (by decide) (by decide)

/-! ## Memory safety of `drawHands` -/

theorem drawHandsTracedLoop_fst (deck : List Card) (players n i : Nat) (hands : List Hand)
    (trace : List DrawAccess) :
    (drawHandsTracedLoop deck players n i hands trace).1 =
      drawHandsLoop deck players n i hands := by
  induction n generalizing i hands trace with
  | zero => rfl
  | succ n ih => simp only [drawHandsTracedLoop, drawHandsLoop, ih]

theorem drawHandsTracedLoop_snd (deck : List Card) (players n i : Nat) (hands : List Hand)
    (trace : List DrawAccess) :
    (drawHandsTracedLoop deck players n i hands trace).2 =
      trace ++ (List.range n).map
        (fun k => (⟨i + k, (i + k) % players, (i + k) / players, players⟩ : DrawAccess)) := by
  induction n generalizing i hands trace with
  | zero => simp only [drawHandsTracedLoop, List.range_zero, List.map_nil, List.append_nil]
  | succ n ih =>
    simp only [drawHandsTracedLoop]
    rw [ih, List.range_succ_eq_map, List.map_cons, List.map_map, List.append_assoc,
      List.singleton_append, Nat.add_zero]
    congr 2
    apply List.map_congr_left
    intro k _
    simp only [Function.comp_def, Nat.succ_eq_add_one]
    rw [show i + 1 + k = i + (k + 1) by omega]

/-- C27: `drawHands` stays in bounds: for `players >= 1` with `players * 5 <= 52`
every iteration reads `deck` at an index below 52, writes the hand at an index
below `players` in a slot below 5, and divides by a number that is not zero;
there are `players * 5` iterations, and none for `players = 0`. -/
theorem drawHands_in_bounds (deck : List Card) (hands : List Hand) (players : Nat)
    (hpos : 1 ≤ players) (hdeck : players * POKER_HAND_SIZE ≤ DECK_SIZE) :
    (drawHandsTraced deck hands players).1 = drawHands deck hands players ∧
      (drawHandsTraced deck hands players).2.length = players * POKER_HAND_SIZE ∧
      (∀ a, a ∈ (drawHandsTraced deck hands players).2 →
        a.deckIndex < DECK_SIZE ∧ a.currentPlayer < players ∧
          a.handIndex < POKER_HAND_SIZE ∧ a.divisor ≠ 0) ∧
      (drawHandsTraced deck hands 0).2 = [] := by
  refine ⟨drawHandsTracedLoop_fst _ _ _ _ _ _, ?_, ?_, rfl⟩
  · rw [drawHandsTraced, drawHandsTracedLoop_snd]
    simp only [List.nil_append, List.length_map, List.length_range]
  · intro a ha
    rw [drawHandsTraced, drawHandsTracedLoop_snd] at ha
    simp only [List.nil_append, List.mem_map, List.mem_range, Nat.zero_add] at ha
    obtain ⟨k, hk, rfl⟩ := ha
    have h5 : players * 5 ≤ 52 := hdeck
    have hk' : k < players * 5 := hk
    refine ⟨by show k < 52; omega, Nat.mod_lt _ hpos, ?_, by show players ≠ 0; omega⟩
    show k / players < 5
    rw [Nat.div_lt_iff_lt_mul hpos, Nat.mul_comm]
    exact hk'

/-- Witness of C27: ten players, the most that the deck allows. -/
theorem drawHands_in_bounds_witness :
    (drawHandsTraced (initializeDeck (List.replicate 52 ⟨0, 0⟩))
        (List.replicate 10 ⟨List.replicate 5 ⟨0, 0⟩, 0⟩) 10).1 =
        drawHands (initializeDeck (List.replicate 52 ⟨0, 0⟩))
          (List.replicate 10 ⟨List.replicate 5 ⟨0, 0⟩, 0⟩) 10 ∧
      (drawHandsTraced (initializeDeck (List.replicate 52 ⟨0, 0⟩))
        (List.replicate 10 ⟨List.replicate 5 ⟨0, 0⟩, 0⟩) 10).2.length =
          10 * POKER_HAND_SIZE ∧
      (∀ a, a ∈ (drawHandsTraced (initializeDeck (List.replicate 52 ⟨0, 0⟩))
          (List.replicate 10 ⟨List.replicate 5 ⟨0, 0⟩, 0⟩) 10).2 →
        a.deckIndex < DECK_SIZE ∧ a.currentPlayer < 10 ∧
          a.handIndex < POKER_HAND_SIZE ∧ a.divisor ≠ 0) ∧
      (drawHandsTraced (initializeDeck (List.replicate 52 ⟨0, 0⟩))
        (List.replicate 10 ⟨List.replicate 5 ⟨0, 0⟩, 0⟩) 0).2 = [] :=
  drawHands_in_bounds (initializeDeck (List.replicate 52 ⟨0, 0⟩))
    (List.replicate 10 ⟨List.replicate 5 ⟨0, 0⟩, 0⟩) 10 (by decide) (by decide)

/-! ## Stability of the sort -/

/-- One compare-and-swap step of `sortHands` keeps, for every key `k`, the cards of
key `k` in the order they had. -/
theorem compareSwap_filter (a b c d e : Card) (i : Nat) (hi : i < 4) (k : Nat) :
    (if getComparable (cardAt [a, b, c, d, e] i) > getComparable (cardAt [a, b, c, d, e] (i + 1))
      then swapCards [a, b, c, d, e] i (i + 1) else [a, b, c, d, e]).filter
        (fun x => decide (getComparable x = k)) =
      [a, b, c, d, e].filter (fun x => decide (getComparable x = k)) := by
  interval_cases i <;>
    simp only [swapCards, cardAt, List.getD_cons_zero, List.getD_cons_succ, zero_add,
      List.set_cons_zero, List.set_cons_succ] <;>
    split <;> try rfl
  all_goals
    rename_i h
    simp only [List.filter_cons, decide_eq_true_eq]
  · by_cases ha : getComparable a = k <;> by_cases hb : getComparable b = k <;>
      first
      | (exfalso; omega)
      | simp only [ha, hb, if_true, if_false]
  · by_cases ha : getComparable b = k <;> by_cases hb : getComparable c = k <;>
      first
      | (exfalso; omega)
      | simp only [ha, hb, if_true, if_false]
  · by_cases ha : getComparable c = k <;> by_cases hb : getComparable d = k <;>
      first
      | (exfalso; omega)
      | simp only [ha, hb, if_true, if_false]
  · by_cases ha : getComparable d = k <;> by_cases hb : getComparable e = k <;>
      first
      | (exfalso; omega)
      | simp only [ha, hb, if_true, if_false]

theorem sortInnerLoop_filter (n i : Nat) (l : List Card) (hl : l.length = 5)
    (h : i + n ≤ 4) (k : Nat) :
    (sortInnerLoop n i l).filter (fun x => decide (getComparable x = k)) =
      l.filter (fun x => decide (getComparable x = k)) := by
  induction n generalizing i l with
  | zero => rfl
  | succ n ih =>
    simp only [sortInnerLoop]
    rw [ih (i + 1) _ (by split; exact (swapCards_length _ _ _).trans hl; exact hl)
      (by omega)]
    obtain ⟨a, b, c, d, e, rfl⟩ := length_eq_five l hl
    exact compareSwap_filter a b c d e i (by omega) k

theorem sortCards_filter (l : List Card) (hl : l.length = POKER_HAND_SIZE) (k : Nat) :
    (sortCards l).filter (fun x => decide (getComparable x = k)) =
      l.filter (fun x => decide (getComparable x = k)) := by
  have h5 : l.length = 5 := hl
  rw [sortCards_eq,
    sortInnerLoop_filter 1 0 _ (by simp only [sortInnerLoop_length]; exact h5) (by omega),
    sortInnerLoop_filter 2 0 _ (by simp only [sortInnerLoop_length]; exact h5) (by omega),
    sortInnerLoop_filter 3 0 _ (by simp only [sortInnerLoop_length]; exact h5) (by omega),
    sortInnerLoop_filter 4 0 _ h5 (by omega)]

/-- C21: `sortHands` is stable: in every hand and for every key value `k`, the cards
whose `getComparable` is `k` come in the same order after the sort as before
it; each step of the inner loop swaps two neighbours only when the left key is
strictly greater than the right key. -/
theorem sortHands_stable (hands : List Hand) (players p k : Nat)
    (h5 : (handAt hands p).cards.length = POKER_HAND_SIZE) :
    (handAt (sortHands hands players) p).cards.filter
        (fun x => decide (getComparable x = k)) =
      (handAt hands p).cards.filter (fun x => decide (getComparable x = k)) ∧
    ∀ (n sortIdx : Nat) (cards : List Card),
      sortInnerLoop (n + 1) sortIdx cards =
        sortInnerLoop n (sortIdx + 1)
          (if getComparable (cardAt cards sortIdx) > getComparable (cardAt cards (sortIdx + 1))
            then swapCards cards sortIdx (sortIdx + 1) else cards) := by
  refine ⟨?_, fun n sortIdx cards => by simp only [sortInnerLoop]⟩
  rw [handAt_sortHands]
  split
  · rw [sortHand_cards]
    exact sortCards_filter _ h5 k
  · rfl

/-- Witness of C21: a hand with two pairs of cards of equal key (suits outside
`0..3`), out of order. -/
theorem sortHands_stable_witness :
    (handAt (sortHands [⟨[⟨2, 0⟩, ⟨1, 0⟩, ⟨0, 4⟩, ⟨1, 4⟩, ⟨0, 8⟩], 0⟩] 1) 0).cards.filter
        (fun x => decide (getComparable x = 4)) =
      (handAt [⟨[⟨2, 0⟩, ⟨1, 0⟩, ⟨0, 4⟩, ⟨1, 4⟩, ⟨0, 8⟩], 0⟩] 0).cards.filter
        (fun x => decide (getComparable x = 4)) ∧
    ∀ (n sortIdx : Nat) (cards : List Card),
      sortInnerLoop (n + 1) sortIdx cards =
        sortInnerLoop n (sortIdx + 1)
          (if getComparable (cardAt cards sortIdx) > getComparable (cardAt cards (sortIdx + 1))
            then swapCards cards sortIdx (sortIdx + 1) else cards) :=
  sortHands_stable [⟨[⟨2, 0⟩, ⟨1, 0⟩, ⟨0, 4⟩, ⟨1, 4⟩, ⟨0, 8⟩], 0⟩] 1 0 4 (by decide)

/-! ## The pair predicates on hands with non-decreasing ranks -/

/-- A five-card array with non-decreasing ranks, card by card. -/
theorem ranks_cons5 (a b c d e : Card)
    (hs : ∀ s, s < POKER_HAND_SIZE - 1 →
      (cardAt [a, b, c, d, e] s).rank ≤ (cardAt [a, b, c, d, e] (s + 1)).rank) :
    a.rank ≤ b.rank ∧ b.rank ≤ c.rank ∧ c.rank ≤ d.rank ∧ d.rank ≤ e.rank := by
  have h0 := hs 0 (by decide)
  have h1 := hs 1 (by decide)
  have h2 := hs 2 (by decide)
  have h3 := hs 3 (by decide)
  simp only [cardAt, List.getD_cons_zero, List.getD_cons_succ, zero_add] at h0 h1 h2 h3
  exact ⟨h0, h1, h2, h3⟩

/-- On non-decreasing ranks, "some rank occurs at least `n` times" in terms of the
four equalities between neighbours, for `n = 2, 3, 4`. -/
theorem rankCount_atLeast_cons5 (a b c d e : Card) (h1 : a.rank ≤ b.rank)
    (h2 : b.rank ≤ c.rank) (h3 : c.rank ≤ d.rank) (h4 : d.rank ≤ e.rank) :
    ((∃ x, x ∈ [a, b, c, d, e] ∧ 2 ≤ rankCount [a, b, c, d, e] x.rank) ↔
        a.rank = b.rank ∨ b.rank = c.rank ∨ c.rank = d.rank ∨ d.rank = e.rank) ∧
      ((∃ x, x ∈ [a, b, c, d, e] ∧ 3 ≤ rankCount [a, b, c, d, e] x.rank) ↔
        (a.rank = b.rank ∧ b.rank = c.rank) ∨ (b.rank = c.rank ∧ c.rank = d.rank) ∨
          (c.rank = d.rank ∧ d.rank = e.rank)) ∧
      ((∃ x, x ∈ [a, b, c, d, e] ∧ 4 ≤ rankCount [a, b, c, d, e] x.rank) ↔
        (a.rank = b.rank ∧ b.rank = c.rank ∧ c.rank = d.rank) ∨
          (b.rank = c.rank ∧ c.rank = d.rank ∧ d.rank = e.rank)) := by
  obtain ⟨cA, cB, cC, cD, cE⟩ := rankCount_cons5 a b c d e h1 h2 h3 h4
  simp only [List.mem_cons, List.mem_singleton, List.not_mem_nil, or_false,
    exists_eq_or_imp, exists_eq_left]
  clear h1 h2 h3 h4
  rcases Classical.propComplete (a.rank = b.rank) with q1 | q1 <;>
    rcases Classical.propComplete (b.rank = c.rank) with q2 | q2 <;>
    rcases Classical.propComplete (c.rank = d.rank) with q3 | q3 <;>
    rcases Classical.propComplete (d.rank = e.rank) with q4 | q4 <;>
    simp only [q1, q2, q3, q4, if_true, if_false, and_true, true_and, and_false, false_and,
      Nat.reduceAdd, Nat.add_zero] at cA cB cC cD cE <;>
    simp only [cA, cB, cC, cD, cE, q1, q2, q3, q4, and_true, true_and, and_false, false_and,
      or_false, false_or, or_true, true_or, Nat.reduceLeDiff, and_self, or_self, iff_self]

/-- The cards of a hand sorted by `sortHands` from valid cards have non-decreasing
ranks. -/
theorem sortHands_ranks_ascending (hands : List Hand) (players p : Nat) (hp : p < players)
    (h5 : (handAt hands p).cards.length = POKER_HAND_SIZE)
    (hv : ∀ c ∈ (handAt hands p).cards, validCard c) :
    (handAt (sortHands hands players) p).cards.length = POKER_HAND_SIZE ∧
      ∀ s, s < POKER_HAND_SIZE - 1 →
        (cardAt (handAt (sortHands hands players) p).cards s).rank ≤
          (cardAt (handAt (sortHands hands players) p).cards (s + 1)).rank := by
  rw [handAt_sortHands, if_pos hp, sortHand_cards]
  obtain ⟨a, b, c, d, e, heq, k1, k2, k3, k4⟩ := sortCards_sorted _ h5
  have hperm := sortCards_perm _ h5
  have hmem : ∀ x ∈ [a, b, c, d, e], validCard x := by
    intro x hx
    rw [← heq] at hx
    exact hv x (hperm.mem_iff.1 hx)
  have hvb := hmem b (by simp)
  have hvc := hmem c (by simp)
  have hvd := hmem d (by simp)
  have hve := hmem e (by simp)
  rw [heq]
  refine ⟨rfl, fun s hs => ?_⟩
  have hs4 : s < 4 := hs
  interval_cases s <;>
    simp only [cardAt, List.getD_cons_zero, List.getD_cons_succ, zero_add]
  · exact rank_le_of_getComparable_le a b hvb.2 k1
  · exact rank_le_of_getComparable_le b c hvc.2 k2
  · exact rank_le_of_getComparable_le c d hvd.2 k3
  · exact rank_le_of_getComparable_le d e hve.2 k4

theorem isOnePair_iff_positions (cards : List Card) (h5 : cards.length = POKER_HAND_SIZE)
    (hs : ∀ s, s < POKER_HAND_SIZE - 1 →
      (cardAt cards s).rank ≤ (cardAt cards (s + 1)).rank) :
    isOnePair cards = true ↔
      ∃ i j, i < j ∧ j < POKER_HAND_SIZE ∧ (cardAt cards i).rank = (cardAt cards j).rank := by
  obtain ⟨a, b, c, d, e, rfl⟩ := length_eq_five cards h5
  obtain ⟨h1, h2, h3, h4⟩ := ranks_cons5 a b c d e hs
  rw [isOnePair_cons5]
  constructor
  · rintro (h | h | h | h)
    · exact ⟨0, 1, by decide, by decide, h⟩
    · exact ⟨1, 2, by decide, by decide, h⟩
    · exact ⟨2, 3, by decide, by decide, h⟩
    · exact ⟨3, 4, by decide, by decide, h⟩
  · rintro ⟨i, j, hij, hj, h⟩
    have hj' : j < 5 := hj
    interval_cases j <;> interval_cases i <;>
      simp only [cardAt, List.getD_cons_zero, List.getD_cons_succ, zero_add] at h <;> omega

theorem isOnePair_iff_count (cards : List Card) (h5 : cards.length = POKER_HAND_SIZE)
    (hs : ∀ s, s < POKER_HAND_SIZE - 1 →
      (cardAt cards s).rank ≤ (cardAt cards (s + 1)).rank) :
    isOnePair cards = true ↔ ∃ x, x ∈ cards ∧ 2 ≤ rankCount cards x.rank := by
  obtain ⟨a, b, c, d, e, rfl⟩ := length_eq_five cards h5
  obtain ⟨h1, h2, h3, h4⟩ := ranks_cons5 a b c d e hs
  rw [isOnePair_cons5, (rankCount_atLeast_cons5 a b c d e h1 h2 h3 h4).1]

/-- C22: on a hand of five cards with non-decreasing ranks, `isOnePair` holds
exactly when two of the five cards have the same rank, that is when some rank
occurs at least twice; in particular this is so on every hand that `sortHands`
produces from valid cards. -/
theorem isOnePair_iff (cards : List Card) (h5 : cards.length = POKER_HAND_SIZE)
    (hs : ∀ s, s < POKER_HAND_SIZE - 1 →
      (cardAt cards s).rank ≤ (cardAt cards (s + 1)).rank) :
    (isOnePair cards = true ↔
        ∃ i j, i < j ∧ j < POKER_HAND_SIZE ∧ (cardAt cards i).rank = (cardAt cards j).rank) ∧
      (isOnePair cards = true ↔ ∃ x, x ∈ cards ∧ 2 ≤ rankCount cards x.rank) ∧
      ∀ (hands : List Hand) (players p : Nat), p < players →
        (handAt hands p).cards.length = POKER_HAND_SIZE →
        (∀ c ∈ (handAt hands p).cards, validCard c) →
        (isOnePair (handAt (sortHands hands players) p).cards = true ↔
          ∃ i j, i < j ∧ j < POKER_HAND_SIZE ∧
            (cardAt (handAt (sortHands hands players) p).cards i).rank =
              (cardAt (handAt (sortHands hands players) p).cards j).rank) := by
  refine ⟨isOnePair_iff_positions cards h5 hs, isOnePair_iff_count cards h5 hs,
    fun hands players p hp hl hv => ?_⟩
  obtain ⟨hl', hs'⟩ := sortHands_ranks_ascending hands players p hp hl hv
  exact isOnePair_iff_positions _ hl' hs'

/-- Witness of C22: a hand sorted by `sortHands`. -/
theorem isOnePair_iff_witness :
    (isOnePair (handAt (sortHands TEST_HANDS 9) 1).cards = true ↔
        ∃ i j, i < j ∧ j < POKER_HAND_SIZE ∧
          (cardAt (handAt (sortHands TEST_HANDS 9) 1).cards i).rank =
            (cardAt (handAt (sortHands TEST_HANDS 9) 1).cards j).rank) ∧
      (isOnePair (handAt (sortHands TEST_HANDS 9) 1).cards = true ↔
        ∃ x, x ∈ (handAt (sortHands TEST_HANDS 9) 1).cards ∧
          2 ≤ rankCount (handAt (sortHands TEST_HANDS 9) 1).cards x.rank) ∧
      ∀ (hands : List Hand) (players p : Nat), p < players →
        (handAt hands p).cards.length = POKER_HAND_SIZE →
        (∀ c ∈ (handAt hands p).cards, validCard c) →
        (isOnePair (handAt (sortHands hands players) p).cards = true ↔
          ∃ i j, i < j ∧ j < POKER_HAND_SIZE ∧
            (cardAt (handAt (sortHands hands players) p).cards i).rank =
              (cardAt (handAt (sortHands hands players) p).cards j).rank) :=
  isOnePair_iff (handAt (sortHands TEST_HANDS 9) 1).cards (by decide) (by decide)

/-- C23: on a hand of five cards with non-decreasing ranks, `isThreeOfAKind` holds
exactly when some rank occurs at least three times. -/
theorem isThreeOfAKind_iff (cards : List Card) (h5 : cards.length = POKER_HAND_SIZE)
    (hs : ∀ s, s < POKER_HAND_SIZE - 1 →
      (cardAt cards s).rank ≤ (cardAt cards (s + 1)).rank) :
    isThreeOfAKind cards = true ↔ ∃ x, x ∈ cards ∧ 3 ≤ rankCount cards x.rank := by
  obtain ⟨a, b, c, d, e, rfl⟩ := length_eq_five cards h5
  obtain ⟨h1, h2, h3, h4⟩ := ranks_cons5 a b c d e hs
  rw [isThreeOfAKind_cons5, (rankCount_atLeast_cons5 a b c d e h1 h2 h3 h4).2.1]

/-- Witness of C23: the sorted fixture hand with three threes. -/
theorem isThreeOfAKind_iff_witness :
    isThreeOfAKind (handAt (sortHands TEST_HANDS 9) 3).cards = true ↔
      ∃ x, x ∈ (handAt (sortHands TEST_HANDS 9) 3).cards ∧
        3 ≤ rankCount (handAt (sortHands TEST_HANDS 9) 3).cards x.rank :=
  isThreeOfAKind_iff (handAt (sortHands TEST_HANDS 9) 3).cards (by decide) (by decide)

/-- C24: on a hand of five cards with non-decreasing ranks, `isFourOfAKind` holds
exactly when some rank occurs at least four times. -/
theorem isFourOfAKind_iff (cards : List Card) (h5 : cards.length = POKER_HAND_SIZE)
    (hs : ∀ s, s < POKER_HAND_SIZE - 1 →
      (cardAt cards s).rank ≤ (cardAt cards (s + 1)).rank) :
    isFourOfAKind cards = true ↔ ∃ x, x ∈ cards ∧ 4 ≤ rankCount cards x.rank := by
  obtain ⟨a, b, c, d, e, rfl⟩ := length_eq_five cards h5
  obtain ⟨h1, h2, h3, h4⟩ := ranks_cons5 a b c d e hs
  rw [isFourOfAKind_cons5, (rankCount_atLeast_cons5 a b c d e h1 h2 h3 h4).2.2]

/-- Witness of C24: the sorted fixture hand with four threes. -/
theorem isFourOfAKind_iff_witness :
    isFourOfAKind (handAt (sortHands TEST_HANDS 9) 7).cards = true ↔
      ∃ x, x ∈ (handAt (sortHands TEST_HANDS 9) 7).cards ∧
        4 ≤ rankCount (handAt (sortHands TEST_HANDS 9) 7).cards x.rank :=
  isFourOfAKind_iff (handAt (sortHands TEST_HANDS 9) 7).cards (by decide) (by decide)

/-! ## Full house and two pairs -/

/-- Five distinct valid cards in ascending key order have non-decreasing ranks,
and the first and the last differ in rank: a rank has only four cards. -/
theorem ranks_of_sorted_distinct (a b c d e : Card)
    (hv : ∀ x ∈ [a, b, c, d, e], validCard x) (hnd : [a, b, c, d, e].Nodup)
    (hs : ∀ s, s < POKER_HAND_SIZE - 1 →
      getComparable (cardAt [a, b, c, d, e] s) ≤ getComparable (cardAt [a, b, c, d, e] (s + 1))) :
    a.rank ≤ b.rank ∧ b.rank ≤ c.rank ∧ c.rank ≤ d.rank ∧ d.rank ≤ e.rank ∧
      a.rank ≠ e.rank := by
  have k1 := hs 0 (by decide)
  have k2 := hs 1 (by decide)
  have k3 := hs 2 (by decide)
  have k4 := hs 3 (by decide)
  simp only [cardAt, List.getD_cons_zero, List.getD_cons_succ, zero_add] at k1 k2 k3 k4
  have hva := hv a (by simp)
  have hvb := hv b (by simp)
  have hvc := hv c (by simp)
  have hvd := hv d (by simp)
  have hve := hv e (by simp)
  simp only [List.nodup_cons, List.mem_cons, List.mem_singleton, List.not_mem_nil, not_or,
    or_false, not_false_eq_true, List.nodup_nil, and_true] at hnd
  obtain ⟨⟨nab, -, -, -⟩, ⟨nbc, -, -⟩, ⟨ncd, -⟩, nde⟩ := hnd
  have l1 := getComparable_lt_of_ne a b hva hvb nab k1
  have l2 := getComparable_lt_of_ne b c hvb hvc nbc k2
  have l3 := getComparable_lt_of_ne c d hvc hvd ncd k3
  have l4 := getComparable_lt_of_ne d e hvd hve nde k4
  refine ⟨rank_le_of_getComparable_le a b hvb.2 k1, rank_le_of_getComparable_le b c hvc.2 k2,
    rank_le_of_getComparable_le c d hvd.2 k3, rank_le_of_getComparable_le d e hve.2 k4, ?_⟩
  have sa := hva.2
  have se := hve.2
  simp only [getComparable, CARD_TYPE_AMOUNT] at l1 l2 l3 l4
  simp only [SPADES] at sa se
  omega

/-- C25: on five distinct valid cards sorted ascending by key, `isFullHouse` holds
exactly when the hand has exactly three cards of one rank and exactly two cards
of another rank. -/
theorem isFullHouse_iff (cards : List Card) (h5 : cards.length = POKER_HAND_SIZE)
    (hv : ∀ x ∈ cards, validCard x) (hnd : cards.Nodup)
    (hs : ∀ s, s < POKER_HAND_SIZE - 1 →
      getComparable (cardAt cards s) ≤ getComparable (cardAt cards (s + 1))) :
    isFullHouse cards = true ↔ twoRanksOccur cards 3 2 = true := by
  obtain ⟨a, b, c, d, e, rfl⟩ := length_eq_five cards h5
  obtain ⟨h1, h2, h3, h4, hne⟩ := ranks_of_sorted_distinct a b c d e hv hnd hs
  rw [isFullHouse_cons5, (twoRanksOccur_cons5 a b c d e h1 h2 h3 h4).1]
  omega

/-- Witness of C25: the full house of the fixture, sorted by `sortHands`. -/
theorem isFullHouse_iff_witness :
    isFullHouse (handAt (sortHands TEST_HANDS 9) 6).cards = true ↔
      twoRanksOccur (handAt (sortHands TEST_HANDS 9) 6).cards 3 2 = true :=
  isFullHouse_iff (handAt (sortHands TEST_HANDS 9) 6).cards (by decide) (by decide)
    (by decide) (by decide)

/-- C26: on five cards with non-decreasing ranks, `isTwoPairs` holds exactly when
there are four distinct positions `i`, `j`, `k`, `l` with `rank(i) = rank(j)` and
`rank(k) = rank(l)`; the three tested configurations miss no such hand. -/
theorem isTwoPairs_iff (cards : List Card) (h5 : cards.length = POKER_HAND_SIZE)
    (hs : ∀ s, s < POKER_HAND_SIZE - 1 →
      (cardAt cards s).rank ≤ (cardAt cards (s + 1)).rank) :
    isTwoPairs cards = true ↔
      ∃ i j k l, i < POKER_HAND_SIZE ∧ j < POKER_HAND_SIZE ∧ k < POKER_HAND_SIZE ∧
        l < POKER_HAND_SIZE ∧ i ≠ j ∧ i ≠ k ∧ i ≠ l ∧ j ≠ k ∧ j ≠ l ∧ k ≠ l ∧
        (cardAt cards i).rank = (cardAt cards j).rank ∧
        (cardAt cards k).rank = (cardAt cards l).rank := by
  obtain ⟨a, b, c, d, e, rfl⟩ := length_eq_five cards h5
  obtain ⟨h1, h2, h3, h4⟩ := ranks_cons5 a b c d e hs
  rw [isTwoPairs_cons5]
  constructor
  · rintro (⟨p, q⟩ | ⟨p, q⟩ | ⟨p, q⟩)
    · exact ⟨0, 1, 2, 3, by decide, by decide, by decide, by decide, by decide, by decide,
        by decide, by decide, by decide, by decide, p, q⟩
    · exact ⟨0, 1, 3, 4, by decide, by decide, by decide, by decide, by decide, by decide,
        by decide, by decide, by decide, by decide, p, q⟩
    · exact ⟨1, 2, 3, 4, by decide, by decide, by decide, by decide, by decide, by decide,
        by decide, by decide, by decide, by decide, p, q⟩
  · rintro ⟨i, j, k, l, hi, hj, hk, hl, nij, nik, nil, njk, njl, nkl, p, q⟩
    have hi' : i < 5 := hi
    have hj' : j < 5 := hj
    have hk' : k < 5 := hk
    have hl' : l < 5 := hl
    clear hs hi hj hk hl
    interval_cases i <;> interval_cases j <;> (try omega) <;>
      interval_cases k <;> (try omega) <;> interval_cases l <;> (try omega) <;>
      simp only [cardAt, List.getD_cons_zero, List.getD_cons_succ, zero_add] at p q <;> omega

/-- Witness of C26: the two pairs of the fixture, sorted by `sortHands`. -/
theorem isTwoPairs_iff_witness :
    isTwoPairs (handAt (sortHands TEST_HANDS 9) 2).cards = true ↔
      ∃ i j k l, i < POKER_HAND_SIZE ∧ j < POKER_HAND_SIZE ∧ k < POKER_HAND_SIZE ∧
        l < POKER_HAND_SIZE ∧ i ≠ j ∧ i ≠ k ∧ i ≠ l ∧ j ≠ k ∧ j ≠ l ∧ k ≠ l ∧
        (cardAt (handAt (sortHands TEST_HANDS 9) 2).cards i).rank =
          (cardAt (handAt (sortHands TEST_HANDS 9) 2).cards j).rank ∧
        (cardAt (handAt (sortHands TEST_HANDS 9) 2).cards k).rank =
          (cardAt (handAt (sortHands TEST_HANDS 9) 2).cards l).rank :=
  isTwoPairs_iff (handAt (sortHands TEST_HANDS 9) 2).cards (by decide) (by decide)

end PokerHands
